import Mathlib

/-
  Verification of the query-building and response-mapping engine of
  django-wikidata-api against its natural-language specification.

  The development shallowly embeds the relevant Python code:
  - utils.py: get_wikidata_field, extract_from_string_by_regex,
    dict_has_substring, is_private_name
  - fields.py: the WikidataField class hierarchy (render operations and
    response decoding)
  - models.py: WikidataItemBase (field loading, build_query, the paginated
    _get_all driver, _merge_duplicates, _from_wikidata, search,
    _execute_query) and WDTriple

  Python values that can be None, a string or a list of strings are
  modelled by the inductive PyVal; code paths that can raise are modelled
  in the Except monad.  Mutable state (one-time field-name binding and the
  wikidata_filter attribute written by entity-field filter rendering) is
  modelled by explicit state passing.
-/

namespace DjangoWikidataAPI

/-- A dynamically typed Python value as used by the field layer: None,
a string, or a list of strings. -/
inductive PyVal where
  | none
  | str (s : String)
  | list (l : List String)
  deriving DecidableEq, Repr

/-- Python truthiness for the values modelled by PyVal. -/
def PyVal.truthy : PyVal → Bool
  | PyVal.none => false
  | PyVal.str s => !s.data.isEmpty
  | PyVal.list l => !l.isEmpty

/-- One binding of a SPARQL JSON result row: the inner dictionary may or
may not carry a "value" entry. -/
structure Binding where
  value : Option String
  deriving DecidableEq, Repr

/-- A response row: the flat dictionary from variable names to bindings. -/
abbrev Row := List (String × Binding)

/-- Dictionary lookup on a row (first matching key). -/
def rowGet (row : Row) (key : String) : Option Binding :=
  (row.find? (fun kv => kv.1 == key)).map (fun kv => kv.2)

/-- utils.get_wikidata_field: wikidata_response_dict[key].get("value", default)
with KeyError caught, returning the default. -/
def get_wikidata_field (row : Row) (key : String) (default : PyVal) : PyVal :=
  match rowGet row key with
  | Option.none => default
  | some b =>
    match b.value with
    | Option.none => default
    | some v => PyVal.str v

/-- Leftmost-first, greedy search for the identifier regular expressions of
constants.py, which all have the shape ([Xx])\d+ for a set of lead
characters (Q/q for entities, P/p for properties): find the first position
holding a lead character followed by at least one digit and return the
lead character together with the maximal digit run. -/
def regexSearchId (leads : List Char) : List Char → Option (List Char)
  | [] => Option.none
  | c :: rest =>
    if leads.contains c && !(rest.takeWhile Char.isDigit).isEmpty then
      some (c :: rest.takeWhile Char.isDigit)
    else
      regexSearchId leads rest

/-- Lead characters of WIKIDATA_ENTITY_REGEX = ([Qq])\d+. -/
def entityLeads : List Char := ['Q', 'q']

/-- utils.extract_from_string_by_regex, specialised to the identifier
regular expressions: re.search(regex, search_string) returns the matched
text, the default when there is no match, and raises TypeError when the
search string is not a string (for example None). -/
def extract_from_string_by_regex (leads : List Char) (search_string : PyVal)
    (default : PyVal) : Except String PyVal :=
  match search_string with
  | PyVal.str s =>
    match regexSearchId leads s.data with
    | some m => Except.ok (PyVal.str (String.mk m))
    | Option.none => Except.ok default
  | _ => Except.error "TypeError: expected string or bytes-like object"

/-- utils.is_private_name: the name starts with an underscore. -/
def is_private_name (s : String) : Bool :=
  match s.data with
  | c :: _ => c = '_'
  | [] => false

/-- Python "or" on strings: the first operand unless it is falsy (empty). -/
def pyOrStr (a b : String) : String :=
  if a.data.isEmpty then b else a

/-- Python sep.join(pieces). -/
def pyJoin (sep : String) : List String → String
  | [] => ""
  | [s] => s
  | s :: rest => s ++ sep ++ pyJoin sep rest

/-- Whitespace test used throughout (Python str.split / str.strip on the
characters occurring in this code base). -/
def isWsC (c : Char) : Bool := c.isWhitespace

/-- Python str.strip(): drop leading and trailing whitespace. -/
def pyStrip (s : String) : String :=
  String.mk (((s.data.dropWhile isWsC).reverse.dropWhile isWsC).reverse)

/-- Python str.lower() (ASCII case folding is all this code base needs). -/
def pyLower (s : String) : String := String.mk (s.data.map Char.toLower)

theorem dropWhile_len_le (p : Char → Bool) :
    ∀ l : List Char, (l.dropWhile p).length ≤ l.length := by
  intro l
  induction l with
  | nil => simp [List.dropWhile]
  | cons c cs ih =>
    by_cases h : p c
    · simp only [List.dropWhile, h]
      exact ih.trans (by simp)
    · simp only [List.dropWhile, h]; simp

/-- Python str.split() (no argument), written with an accumulator so that
it is structurally recursive (and therefore evaluates inside the kernel):
the accumulator holds the reversed current word. -/
def pyWordsAux : List Char → List Char → List (List Char)
  | acc, [] => if acc.isEmpty then [] else [acc.reverse]
  | acc, c :: rest =>
    if isWsC c then
      if acc.isEmpty then pyWordsAux [] rest
      else acc.reverse :: pyWordsAux [] rest
    else pyWordsAux (c :: acc) rest

/-- Python str.split() (no argument): the list of maximal runs of
non-whitespace characters. -/
def pyWords (l : List Char) : List (List Char) := pyWordsAux [] l

/-- The same function in direct takeWhile/dropWhile style, used as the
reasoning-friendly characterisation of pyWords. -/
def pyWordsSpec (l : List Char) : List (List Char) :=
  match l with
  | [] => []
  | c :: rest =>
    if isWsC c then pyWordsSpec rest
    else ((c :: rest).takeWhile (fun d => !isWsC d)) ::
      pyWordsSpec ((c :: rest).dropWhile (fun d => !isWsC d))
termination_by l.length
decreasing_by
  all_goals simp_all [List.dropWhile]
  all_goals
    have := dropWhile_len_le (fun d => !isWsC d) rest
    omega

theorem pyWordsAux_spec : ∀ (l acc : List Char),
    pyWordsAux acc l =
      if acc.isEmpty then pyWordsSpec l
      else (acc.reverse ++ l.takeWhile (fun d => !isWsC d)) ::
        pyWordsSpec (l.dropWhile (fun d => !isWsC d)) := by
  intro l
  induction l with
  | nil =>
    intro acc
    by_cases ha : acc.isEmpty <;>
      simp [pyWordsAux, pyWordsSpec, List.takeWhile, List.dropWhile, ha]
  | cons c rest ih =>
    intro acc
    cases hc : isWsC c with
    | true =>
      have hspec : pyWordsSpec (c :: rest) = pyWordsSpec rest := by
        rw [pyWordsSpec]
        simp [hc]
      by_cases ha : acc.isEmpty
      · have ha2 : acc = [] := by simpa using ha
        subst ha2
        simp only [pyWordsAux, hc, if_true, ha, hspec]
        exact ih []
      · simp only [pyWordsAux, hc, if_true, if_neg ha, ha, if_false]
        rw [ih []]
        simp only [List.isEmpty_nil, if_true, List.takeWhile_cons, hc,
          Bool.not_true, List.dropWhile_cons, Bool.false_eq_true, if_false]
        rw [hspec]
        simp
    | false =>
      simp only [pyWordsAux, hc, Bool.false_eq_true, if_false]
      rw [ih (c :: acc)]
      simp only [List.isEmpty_cons, List.reverse_cons, Bool.false_eq_true,
        if_false]
      by_cases ha : acc.isEmpty
      · have ha2 : acc = [] := by simpa using ha
        subst ha2
        rw [pyWordsSpec]
        simp [hc, List.takeWhile_cons, List.dropWhile_cons]
      · simp only [ha, if_false, List.takeWhile_cons, List.dropWhile_cons, hc,
          Bool.not_false, if_true, Bool.false_eq_true]
        simp

theorem pyWords_eq_spec (l : List Char) : pyWords l = pyWordsSpec l := by
  have := pyWordsAux_spec l []
  simpa [pyWords] using this

/-- Python " ".join(pieces). -/
def joinWords : List (List Char) → List Char
  | [] => []
  | [w] => w
  | w :: ws => w ++ ' ' :: joinWords ws

/-- The query minification " ".join(query.split()) performed at the end of
build_query. -/
def minify (s : String) : String := String.mk (joinWords (pyWords s.data))

/-- Does the second list start with the first? -/
def startsWithChars : List Char → List Char → Bool
  | [], _ => true
  | _ :: _, [] => false
  | p :: ps, c :: rest => p = c && startsWithChars ps rest

/-- Python str.split(sep) with an explicit non-empty separator, written
with explicit fuel (one unit per consumed character) so that it is
structurally recursive; the fuel supplied by pySplit is always
sufficient. -/
def splitOnCharsAux (sep : List Char) : Nat → List Char → List Char → List (List Char)
  | 0, acc, _ => [acc.reverse]
  | fuel + 1, acc, l =>
    match l with
    | [] => [acc.reverse]
    | c :: rest =>
      if startsWithChars sep (c :: rest) then
        acc.reverse :: splitOnCharsAux sep fuel [] ((c :: rest).drop sep.length)
      else
        splitOnCharsAux sep fuel (c :: acc) rest

/-- Python str.split(sep) with an explicit separator. -/
def pySplit (s : String) (sep : String) : List String :=
  (splitOnCharsAux sep.data (s.data.length + 1) [] s.data).map String.mk

/-! ## constants.py -/

def ALL_LANGUAGES : String :=
  "[AUTO_LANGUAGE],en,fr,ar,be,bg,bn,ca,cs,da,de,el,en,es,et,fa,fi,he,hi,hu,hy,id,it,ja,jv,ko,nb,nl,eo,pa,pl,pt,ro,ru,sh,sk,sr,sv,sw,te,th,tr,uk,yue,vec,vi,zh"

def ENGLISH_LANG : String := "en"

/-- WIKIDATA_ENTITY_PREFIX (renamed to fit this file). -/
def wdEntityPfx : String := "wd"

/-- WIKIDATA_PROP_PREFIX (renamed to fit this file). -/
def wdPropPfx : String := "wdt"

/-- WIKIDATA_SUBCLASS_PROP. -/
def wdSubclassProp : String := "P279"

def WIKIDATA_SPARQL_ENDPOINT : String := "https://query.wikidata.org/sparql"

/-- WIKIDATA_ENTITY_PREFIX_URL (renamed to fit this file). -/
def wdEntityPfxUrl : String := "http://www.wikidata.org/entity/"

/-- WIKIDATA_PROP_PREFIX_URL (renamed to fit this file). -/
def wdPropPfxUrl : String := "http://www.wikidata.org/prop/direct/"

/-! ## models.py: WDTriple -/

/-- models.WDTriple after a successful __init__ (the three trailing fields
hold the constructor keyword defaults, renamed prop_prefix -> propPfx and
so on to fit this file). -/
structure WDTriple where
  prop : String
  values : List String
  subclass : Bool := false
  minus : Bool := false
  propPfx : String := wdPropPfx
  entityPfx : String := wdEntityPfx
  subclassProp : String := wdSubclassProp
  deriving DecidableEq, Repr

/-- WDTriple.__init__: asserts that more than one object value is never
combined with the negation flag, then stores the arguments. -/
def WDTriple.init (prop : String) (values : List String)
    (subclass : Bool := false) (minus : Bool := false)
    (propPfx : String := wdPropPfx) (entityPfx : String := wdEntityPfx)
    (subclassProp : String := wdSubclassProp) : Except String WDTriple :=
  if values.length > 1 && minus then
    Except.error "AssertionError: Union and Minus should not be used in the same clause"
  else
    Except.ok ⟨prop, values, subclass, minus, propPfx, entityPfx, subclassProp⟩

/-- WDTriple.format: each object value becomes one brace-enclosed pattern,
the alternatives are joined with UNION, and the negation flag prepends
MINUS.  The Optional[str] arguments of the source are modelled with the
empty string standing for None (both are falsy in the "or" fallback). -/
def WDTriple.format (t : WDTriple) (fieldName : String)
    (pp ep scp : String) : String :=
  let pp := pyOrStr pp t.propPfx
  let ep := pyOrStr ep t.entityPfx
  let scp := pyOrStr scp t.subclassProp
  let queryProp := if t.subclass then t.prop ++ "/" ++ pp ++ ":" ++ scp ++ "*" else t.prop
  let q := pyJoin " UNION "
    (t.values.map (fun v =>
      "\x7b ?" ++ fieldName ++ " " ++ pp ++ ":" ++ queryProp ++ " " ++ ep ++ ":" ++ v ++ ".\x7d"))
  if t.minus then "MINUS " ++ q else q

/-! ## fields.py -/

/-- The closed set of field variants of fields.py.  The base kind covers
WikidataField and WikidataCharField (identical query behaviour); entity
and mainEntity carry their triples; schemaAbout carries its url. -/
inductive FieldKind where
  | base
  | label
  | description
  | entity (triples : List WDTriple)
  | mainEntity (triples : List WDTriple)
  | entityFilter
  | list
  | altLabel
  | entityList
  | schemaAbout (url : String)
  | conformance
  deriving DecidableEq, Repr

/-- A field of fields.py: the variant tag plus the configuration stored by
__init__, plus the mutable attributes (name and public, set by set_name
when the model loads its fields; wikidata_filter, written by the
entity-field filter rendering). -/
structure Field where
  kind : FieldKind
  entity_name : String := "main"
  properties : Option (List String) := Option.none
  values : List String := []
  default : PyVal := PyVal.none
  required : Bool := false
  public : Option Bool := Option.none
  show_in_minimal : Bool := false
  separator : String := "|"
  name : Option String := Option.none
  wikidata_filter : Option String := Option.none
  deriving DecidableEq, Repr

namespace Field

/-- sparql_field_suffix: "Label" and "Description" for the label variants,
empty otherwise. -/
def sfSuffix (f : Field) : String :=
  match f.kind with
  | FieldKind.label => "Label"
  | FieldKind.description => "Description"
  | _ => ""

/-- self.from_name = "?{entity_name}{sparql_field_suffix}". -/
def from_name (f : Field) : String := "?" ++ f.entity_name ++ f.sfSuffix

/-- f-string rendering of self.name (Python renders None as "None"). -/
def pyName (f : Field) : String :=
  match f.name with
  | some n => n
  | Option.none => "None"

/-- WikidataField.use_minimal. -/
def use_minimal (f : Field) (minimal : Bool) : Bool :=
  minimal && !f.show_in_minimal

/-- WikidataField.set_name: store the name and derive public from the
naming convention when it was not configured explicitly. -/
def set_name (f : Field) (n : String) : Field :=
  { f with
    name := some n
    public :=
      match f.public with
      | some b => some b
      | Option.none => some (!is_private_name n) }

/-- WikidataField._prop_sparql_string. -/
def propSparqlString (f : Field) (pp : String) : String :=
  pyJoin "|" ((f.properties.getD []).map (fun p => pp ++ ":" ++ p))

/-- "OPTIONAL {{ {} }}".format(fragment). -/
def optionalWrap (s : String) : String := "OPTIONAL \x7b " ++ s ++ " \x7d"

/-- to_wikidata_field of each variant. -/
def to_wikidata_field (f : Field) (minimal : Bool) : String :=
  match f.kind with
  | FieldKind.label | FieldKind.description =>
    f.from_name ++ " (" ++ f.from_name ++ " AS ?" ++ f.pyName ++ ")"
  | FieldKind.mainEntity _ => "?" ++ f.pyName
  | FieldKind.altLabel =>
    if f.use_minimal minimal then "" else
      "(GROUP_CONCAT(DISTINCT ?" ++ f.entity_name ++ "_alt_label; SEPARATOR=\x27" ++
        f.separator ++ "\x27) AS ?" ++ f.pyName ++ ")"
  | FieldKind.list =>
    if f.use_minimal minimal then "" else
      "(GROUP_CONCAT(DISTINCT ?" ++ f.pyName ++ "_item; SEPARATOR=\x27" ++
        f.separator ++ "\x27) AS ?" ++ f.pyName ++ ")"
  | FieldKind.entityList =>
    if f.use_minimal minimal then "" else
      "(GROUP_CONCAT(DISTINCT ?" ++ f.pyName ++ "_itemLabel; SEPARATOR=\x27" ++
        f.separator ++ "\x27) AS ?" ++ f.pyName ++ ")"
  | FieldKind.conformance => ""
  | _ => if f.use_minimal minimal then "" else "?" ++ f.pyName

/-- to_wikidata_inner_field of each variant (the base implementation
dispatches to to_wikidata_field, which for the conformance variant is the
empty no-SPARQL version). -/
def to_wikidata_inner_field (f : Field) (minimal : Bool) : String :=
  match f.kind with
  | FieldKind.label | FieldKind.description | FieldKind.altLabel => ""
  | FieldKind.list | FieldKind.entityList =>
    if f.use_minimal minimal then "" else "?" ++ f.pyName ++ "_item"
  | _ => f.to_wikidata_field minimal

/-- to_wikidata_filter of each variant, in the Except monad because the
base implementation asserts that the configured properties form a
non-empty list. -/
def to_wikidata_filter (f : Field) (pp ep scp : String) : Except String String :=
  match f.kind with
  | FieldKind.label | FieldKind.description | FieldKind.altLabel
  | FieldKind.conformance => Except.ok ""
  | FieldKind.entity ts | FieldKind.mainEntity ts =>
    let inner := pyJoin " " (ts.map (fun t => t.format f.entity_name pp ep scp))
    Except.ok (if f.required then inner else optionalWrap inner)
  | FieldKind.entityFilter =>
    let props := f.propSparqlString pp
    let vals := pyJoin ("|| ?" ++ f.pyName ++ "_qid=wd:") f.values
    let wd := "?" ++ f.entity_name ++ " " ++ props ++ " ?" ++ f.pyName ++
      "_qid. FILTER(?" ++ f.pyName ++ "_qid=wd:" ++ vals ++ ")."
    Except.ok (if f.required then wd else optionalWrap wd)
  | FieldKind.list | FieldKind.entityList =>
    let wd := "?" ++ f.entity_name ++ " " ++ f.propSparqlString pp ++ " ?" ++
      f.pyName ++ "_item ."
    Except.ok (if f.required then wd else optionalWrap wd)
  | FieldKind.schemaAbout url =>
    let wd := "?" ++ f.pyName ++ " schema:about ?" ++ f.entity_name ++
      "; schema:isPartOf <" ++ url ++ ">."
    Except.ok (if f.required then wd else optionalWrap wd)
  | FieldKind.base =>
    match f.properties with
    | some ps =>
      if ps.isEmpty then
        Except.error "AssertionError: There are no properties associated with this field."
      else
        let wd := "?" ++ f.entity_name ++ " " ++ f.propSparqlString pp ++ " ?" ++
          f.pyName ++ "."
        Except.ok (if f.required then wd else optionalWrap wd)
    | Option.none =>
      Except.error "AssertionError: There are no properties associated with this field."

/-- The state mutation performed by the entity-field to_wikidata_filter
(self.wikidata_filter is assigned the joined triple string); every other
variant leaves the field unchanged. -/
def afterFilter (f : Field) (pp ep scp : String) : Field :=
  match f.kind with
  | FieldKind.entity ts | FieldKind.mainEntity ts =>
    let w := pyJoin " " (ts.map (fun t => t.format f.entity_name pp ep scp))
    { f with wikidata_filter := some w }
  | _ => f

/-- to_wikidata_outer_filter: only the alternative-label variant
contributes; everything else returns the empty string. -/
def to_wikidata_outer_filter (f : Field) (language : String) : String :=
  match f.kind with
  | FieldKind.altLabel =>
    let wd := "?" ++ f.entity_name ++ " skos:altLabel ?" ++ f.entity_name ++
      "_alt_label ." ++ "FILTER (lang(?" ++ f.entity_name ++ "_alt_label)=\x27" ++
      language ++ "\x27)"
    if f.required then wd else optionalWrap wd
  | _ => ""

/-- to_wikidata_service of each variant. -/
def to_wikidata_service (f : Field) : String :=
  match f.kind with
  | FieldKind.label => "?" ++ f.entity_name ++ " rdfs:label " ++ f.from_name ++ " . "
  | FieldKind.description =>
    "?" ++ f.entity_name ++ " schema:description " ++ f.from_name ++ " . "
  | FieldKind.entityFilter =>
    "?" ++ f.pyName ++ "_qid rdfs:label ?" ++ f.pyName ++ " . "
  | FieldKind.entityList =>
    "?" ++ f.pyName ++ "_item rdfs:label ?" ++ f.pyName ++ "_itemLabel . "
  | _ => ""

/-- to_wikidata_group of each variant. -/
def to_wikidata_group (f : Field) : String :=
  match f.kind with
  | FieldKind.entity _ | FieldKind.mainEntity _ | FieldKind.entityFilter
  | FieldKind.schemaAbout _ => "?" ++ f.pyName
  | FieldKind.list | FieldKind.altLabel | FieldKind.entityList
  | FieldKind.conformance => ""
  | _ => f.from_name

/-- from_wikidata of each variant, in the Except monad: the entity
variants run the decoded value through re.search, which raises TypeError
on a non-string (for example a None default when the key is absent), and
the list variants call .split on any truthy value, which raises
AttributeError on a truthy non-string. -/
def from_wikidata (f : Field) (row : Row) : Except String PyVal :=
  match f.kind with
  | FieldKind.entity _ | FieldKind.mainEntity _ =>
    let value := get_wikidata_field row f.pyName f.default
    extract_from_string_by_regex entityLeads value value
  | FieldKind.list | FieldKind.altLabel | FieldKind.entityList =>
    let v := get_wikidata_field row f.pyName f.default
    if v.truthy then
      match v with
      | PyVal.str s => Except.ok (PyVal.list (pySplit s f.separator))
      | _ => Except.error "AttributeError: object has no attribute split"
    else Except.ok f.default
  | _ => Except.ok (get_wikidata_field row f.pyName f.default)

end Field

/-! ## models.py: WikidataItemBase -/

/-- Meta.language. -/
def metaLanguage : String := ENGLISH_LANG

/-- Meta.default_page_size. -/
def defaultPageSize : Nat := 100

/-- Meta.query_max_get_request_length. -/
def queryMaxGetRequestLength : Nat := 1000

/-- Meta.user_agent. -/
def metaUserAgent : String := "django-wikidata-api/application"

/-- The class attributes of WikidataItemBase that are WikidataField
instances, in class-body order, before any name binding:
main, label, description, alt_labels, conformance. -/
def mainFieldInit : Field :=
  { kind := FieldKind.mainEntity [], required := true, show_in_minimal := true }

def labelFieldInit : Field :=
  { kind := FieldKind.label, required := true, show_in_minimal := true }

def descriptionFieldInit : Field :=
  { kind := FieldKind.description, show_in_minimal := true }

/-- WikidataAltLabelField(): WikidataListField.__init__ with empty=True
sets the default to the empty list. -/
def altLabelsFieldInit : Field :=
  { kind := FieldKind.altLabel, default := PyVal.list [] }

def conformanceFieldInit : Field :=
  { kind := FieldKind.conformance }

/-- The initial (class-definition time) attribute dictionary restricted to
WikidataField values, in the order _load_wikidata_fields walks it for
WikidataItemBase itself. -/
def baseModelAttrs : List (String × Field) :=
  [("main", mainFieldInit), ("label", labelFieldInit),
   ("description", descriptionFieldInit), ("alt_labels", altLabelsFieldInit),
   ("conformance", conformanceFieldInit)]

/-- _load_wikidata_fields: bind every field name to its attribute key via
set_name (the mro walk and key dedup of the source are trivial for the
base model itself, which is the modelled descriptor). -/
def loadWikidataFields (attrs : List (String × Field)) : List (String × Field) :=
  attrs.map (fun kv => (kv.1, kv.2.set_name kv.1))

/-- The call parameters of build_query with their source defaults (a None
values argument and an empty tuple behave identically and are both
modelled by the empty list). -/
structure QueryParams where
  values : List String := []
  limit : Option Nat := Option.none
  minimal : Bool := false
  offset : Option Nat := Option.none
  count : Bool := false
  language : Option String := Option.none
  deriving DecidableEq, Repr

/-- Python truthiness of an optional integer (None and 0 are falsy). -/
def optNatTruthy : Option Nat → Bool
  | some n => n != 0
  | Option.none => false

/-- _get_primary_language: the explicit language argument if truthy, else
the Meta default. -/
def getPrimaryLanguage (language : Option String) : String :=
  match language with
  | some l => pyOrStr l metaLanguage
  | Option.none => metaLanguage

/-- _build_query_languages. -/
def buildQueryLanguages (language : Option String) : String :=
  getPrimaryLanguage language ++ "," ++ ALL_LANGUAGES

/-- _build_query_values. -/
def buildQueryValues (values : List String) : String :=
  if values.isEmpty then ""
  else
    "VALUES ?main \x7b" ++
      pyJoin " " (values.map (fun v => wdEntityPfx ++ ":" ++ v)) ++ "\x7d"

/-- _build_query_order_by. -/
def buildQueryOrderBy (count : Bool) : String :=
  if count then "" else "ORDER BY ?main"

/-- _build_query_prefixes over Meta.prefix_map (wd, then wdt, in the
insertion order of the dictionary). -/
def buildQueryPrefixes : String :=
  "PREFIX " ++ wdEntityPfx ++ ": <" ++ wdEntityPfxUrl ++ "> PREFIX " ++
    wdPropPfx ++ ": <" ++ wdPropPfxUrl ++ ">"

/-- _build_query_service_clause. -/
def buildQueryServiceClause (fields : List Field) (minimal : Bool)
    (language : Option String) : String :=
  let queryServices := pyStrip (pyJoin " "
    ((fields.filter (fun f => !f.use_minimal minimal)).map Field.to_wikidata_service))
  "SERVICE wikibase:label \x7b bd:serviceParam wikibase:language \x27" ++
    buildQueryLanguages language ++ "\x27. " ++ queryServices ++ " \x7d"

/-- _build_query_filters, threading the per-field state mutation of the
entity-variant filter rendering: only the participating fields
(required or not suppressed by the minimal projection) are rendered and
mutated; the fragments are joined with single spaces by the caller. -/
def buildQueryFiltersAux (pp ep scp : String) (minimal : Bool) :
    List (String × Field) → Except String (List String × List (String × Field))
  | [] => Except.ok ([], [])
  | kv :: rest => do
    let (frags, rest') ← buildQueryFiltersAux pp ep scp minimal rest
    if kv.2.required || !kv.2.use_minimal minimal then do
      let frag ← kv.2.to_wikidata_filter pp ep scp
      Except.ok (frag :: frags, (kv.1, kv.2.afterFilter pp ep scp) :: rest')
    else
      Except.ok (frags, kv :: rest')

/-- WikidataItemBase.build_query as a state transformer over the model's
field attributes.  The literal whitespace of the triple-quoted f-strings
(indentation runs) is normalised here to single blanks and newlines; the
final " ".join(query.split()) minification makes the two renderings
byte-identical, so nothing observable depends on it. -/
def build_query (p : QueryParams) (state : List (String × Field)) :
    Except String (String × List (String × Field)) := do
  let minimal := if p.count then true else p.minimal
  let s1 := loadWikidataFields state
  let fields := s1.map Prod.snd
  let primaryLanguage := getPrimaryLanguage p.language
  let queryFieldsStr := pyJoin " " (fields.map (fun f => f.to_wikidata_field minimal))
  let queryInnerFieldsStr :=
    pyJoin " " (fields.map (fun f => f.to_wikidata_inner_field minimal))
  let (filterFrags, s2) ← buildQueryFiltersAux wdPropPfx wdEntityPfx wdSubclassProp minimal s1
  let queryFiltersStr := pyJoin " " filterFrags
  let fields2 := s2.map Prod.snd
  let queryOuterFiltersStr := pyJoin " "
    ((fields2.filter (fun f => f.required || !f.use_minimal minimal)).map
      (fun f => f.to_wikidata_outer_filter primaryLanguage))
  let groupByText := pyStrip (pyJoin " " (fields2.map Field.to_wikidata_group))
  let groupBy := if groupByText.data.isEmpty then "" else "GROUP BY " ++ groupByText
  let valuesFilter := buildQueryValues p.values
  let orderBy := buildQueryOrderBy p.count
  let prefixesStr := buildQueryPrefixes
  let queryService := buildQueryServiceClause fields2 minimal p.language
  let limitBy := if optNatTruthy p.limit then "LIMIT " ++ toString (p.limit.getD 0) else ""
  let offsetBy := if optNatTruthy p.offset then "OFFSET " ++ toString (p.offset.getD 0) else ""
  let sqAndQuery :=
    if !valuesFilter.data.isEmpty then
      let sq := "\n SELECT DISTINCT " ++ queryFieldsStr ++ "\n WHERE \x7b\n " ++
        valuesFilter ++ " " ++ queryFiltersStr ++ " " ++ queryOuterFiltersStr ++ " " ++
        queryService ++ "\n \x7d\n " ++ groupBy ++ " " ++ orderBy ++ " " ++
        limitBy ++ " " ++ offsetBy ++ "\n"
      (sq, sq)
    else
      let sq := "SELECT DISTINCT " ++ queryInnerFieldsStr ++ " WHERE \x7b" ++
        queryFiltersStr ++ "\x7d " ++ orderBy ++ " " ++ limitBy ++ " " ++ offsetBy
      let q := "\n SELECT DISTINCT " ++ queryFieldsStr ++ " WHERE \x7b\n \x7b " ++
        sq ++ " \x7d " ++ queryOuterFiltersStr ++ " " ++ queryService ++
        "\n \x7d\n " ++ groupBy ++ "\n"
      (sq, q)
  let query :=
    if p.count then
      "SELECT (COUNT(?main) AS ?count) WHERE \x7b " ++ sqAndQuery.1 ++ " \x7d"
    else sqAndQuery.2
  Except.ok (minify (prefixesStr ++ " " ++ query), s2)

/-! ## models.py: query execution (transport request construction) -/

inductive HttpMethod where
  | get
  | post
  deriving DecidableEq, Repr

/-- The observable request assembled by _execute_query before it is handed
to the requests library ("data" is the query-parameter dict for GET and
the form body for POST). -/
structure HttpRequest where
  method : HttpMethod
  url : String
  data : List (String × String)
  headers : List (String × String)
  deriving DecidableEq, Repr

/-- The identifying comment line prepended to every outgoing query. -/
def toolComment : String := "#Tool: django-wikidata-api\n"

/-- _execute_query, up to the transport boundary: decorate the query,
choose GET with an explicit format=json parameter when the decorated query
is shorter than Meta.query_max_get_request_length, POST with the form body
otherwise, and always send the Accept and User-Agent headers.  The
endpoint and user agent arguments use the empty string for None (both
falsy in the "or" fallback). -/
def execute_query_request (query : String) (sparqlEndpoint : String := "")
    (userAgent : String := "") : HttpRequest :=
  let ep := pyOrStr sparqlEndpoint WIKIDATA_SPARQL_ENDPOINT
  let ua := pyOrStr userAgent metaUserAgent
  let q := toolComment ++ query
  let headers := [("Accept", "application/sparql-results+json"), ("User-Agent", ua)]
  if q.length < queryMaxGetRequestLength then
    { method := HttpMethod.get, url := ep,
      data := [("query", q), ("format", "json")], headers := headers }
  else
    { method := HttpMethod.post, url := ep,
      data := [("query", q)], headers := headers }

/-! ## models.py: decoding and the pagination driver -/

/-- A decoded model instance of the base descriptor: one attribute per
field plus the derived id. -/
structure Instance where
  main : PyVal := PyVal.none
  label : PyVal := PyVal.none
  description : PyVal := PyVal.none
  alt_labels : PyVal := PyVal.none
  conformance : PyVal := PyVal.none
  id : PyVal := PyVal.none
  deriving DecidableEq, Repr

/-- The loaded (name-bound) base-model fields. -/
def mainFieldLoaded : Field := mainFieldInit.set_name "main"
def labelFieldLoaded : Field := labelFieldInit.set_name "label"
def descriptionFieldLoaded : Field := descriptionFieldInit.set_name "description"
def altLabelsFieldLoaded : Field := altLabelsFieldInit.set_name "alt_labels"
def conformanceFieldLoaded : Field := conformanceFieldInit.set_name "conformance"

/-- WikidataItemBase._from_wikidata (without the external conformance
collaborator): decode every field in order, copy the main value to id and
assert that the identifier is truthy. -/
def from_wikidata_model (row : Row) : Except String Instance := do
  let mainV ← mainFieldLoaded.from_wikidata row
  let labelV ← labelFieldLoaded.from_wikidata row
  let descV ← descriptionFieldLoaded.from_wikidata row
  let altV ← altLabelsFieldLoaded.from_wikidata row
  let confV ← conformanceFieldLoaded.from_wikidata row
  let obj : Instance :=
    { main := mainV, label := labelV, description := descV,
      alt_labels := altV, conformance := confV, id := mainV }
  if obj.id.truthy then Except.ok obj
  else Except.error "AssertionError: Wikidata Item Must Have Identifier"

/-- One iteration of the _merge_duplicates loop: keep the accumulated
dictionary when the id is already present, append the item otherwise. -/
def mergeStep (acc : List Instance) (item : Instance) : List Instance :=
  if acc.any (fun y => y.id == item.id) then acc else acc ++ [item]

/-- WikidataItemBase._merge_duplicates: insert into an (insertion-ordered)
dictionary keyed by id, keeping the first occurrence of every id. -/
def mergeDuplicates (items : List Instance) : List Instance :=
  items.foldl mergeStep []

/-- The arguments _get_all passes to _query_wikidata for one page. -/
structure WDRequest where
  values : Option (List String)
  limit : Int
  minimal : Bool
  offset : Nat
  language : Option String
  deriving DecidableEq, Repr

/-- Python list slicing values[start:stop] for the index shapes used by
_get_all (non-negative bounds). -/
def pySlice (l : List String) (start stop : Nat) : List String :=
  (l.take stop).drop start

/-- Decode a page of rows in order (the generator body of _get_all). -/
def decodeRows : List Row → Except String (List Instance)
  | [] => Except.ok []
  | r :: rs => do
    let i ← from_wikidata_model r
    let is ← decodeRows rs
    Except.ok (i :: is)

/-- The request _get_all builds for one page: with a supplied identifier
list the list is sliced by [offset : offset + query_limit] and the SPARQL
offset is forced to zero; without one, the SPARQL offset carries the
paging position. -/
def pageRequest (minimal : Bool) (pageSize : Nat) (limit : Option Nat)
    (values : List String) (language : Option String) (page : Nat)
    (remaining : Option Int) : WDRequest :=
  let offset := (page - 1) * pageSize
  let queryLimit : Int :=
    if optNatTruthy limit then min (remaining.getD 0) (pageSize : Int)
    else (pageSize : Int)
  let qvAndOffset : Option (List String) × Nat :=
    if !values.isEmpty then (some (pySlice values offset (offset + queryLimit.toNat)), 0)
    else (Option.none, offset)
  { values := qvAndOffset.1, limit := queryLimit, minimal := minimal,
    offset := qvAndOffset.2, language := language }

/-- The while-loop of WikidataItemBase._get_all, parameterised by the
query oracle exec (the response bindings the endpoint returns for a page
request).  The loop also records each issued request.  Fuel models the
unbounded while loop; every theorem below exits through the loop's own
finished flag, never through fuel exhaustion. -/
def getAllLoop (exec : WDRequest → List Row) (minimal : Bool) (pageSize : Nat)
    (limit : Option Nat) (values : List String) (language : Option String)
    (singlePage : Bool) (unknownDepth : Bool) (valueTotal : Option Nat) :
    Nat → Nat → Option Int → Except String (List WDRequest × List Instance)
  | 0, _, _ => Except.error "fuel exhausted: the modelled loop bound was reached"
  | fuel + 1, page, remaining => do
    let offset := (page - 1) * pageSize
    let req : WDRequest := pageRequest minimal pageSize limit values language page remaining
    let rows := exec req
    let items ← decodeRows rows
    let apiCount := rows.length
    let remaining' : Option Int :=
      match remaining with
      | some r => if r != 0 then some (r - apiCount) else some r
      | Option.none => Option.none
    let finished := singlePage || (unknownDepth && apiCount == 0) ||
      (match remaining' with | some r => decide (r ≤ 0) | Option.none => false) ||
      (match valueTotal with | some t => t != 0 && decide (offset ≥ t) | Option.none => false)
    if finished then
      Except.ok ([req], items)
    else do
      let more ← getAllLoop exec minimal pageSize limit values language singlePage
        unknownDepth valueTotal fuel (page + 1) remaining'
      Except.ok (req :: more.1, items ++ more.2)

/-- WikidataItemBase.get_all composed with _get_all: initialise the loop
state exactly as _get_all does, run the loop, and merge duplicates when
all pages were requested (page=None).  The issued requests are returned
alongside the instances for observability. -/
def get_all_model (exec : WDRequest → List Row) (fuel : Nat)
    (page : Option Nat := some 1) (pageSize : Option Nat := Option.none)
    (limit : Option Nat := Option.none) (minimal : Bool := true)
    (values : List String := []) (language : Option String := Option.none) :
    Except String (List WDRequest × List Instance) := do
  let singlePage := page.isSome
  let pageSize' := match pageSize with
    | some n => if n != 0 then n else defaultPageSize
    | Option.none => defaultPageSize
  let unknownDepth := values.isEmpty
  let startPage := match page with
    | some p => if p != 0 then p else 1
    | Option.none => 1
  let valueTotal : Option Nat := if values.isEmpty then Option.none else some values.length
  let remaining0 : Option Int := limit.map (fun l => (l : Int))
  let remaining : Option Int :=
    match valueTotal with
    | some t =>
      match remaining0 with
      | some r => if r != 0 then some (min r (t : Int)) else some ((t : Int))
      | Option.none => some ((t : Int))
    | Option.none => remaining0
  let out ← getAllLoop exec minimal pageSize' limit values language singlePage
    unknownDepth valueTotal fuel startPage remaining
  if singlePage then Except.ok out
  else Except.ok (out.1, mergeDuplicates out.2)

/-! ## models.py / utils.py: search -/

/-- Python repr of one of the strings stored in instance attributes (no
embedded quotes occur in the modelled data). -/
def pyReprStr (s : String) : String := "\x27" ++ s ++ "\x27"

/-- Python str() of an attribute value as it appears inside
str(dict.values()). -/
def pyReprVal : PyVal → String
  | PyVal.none => "None"
  | PyVal.str s => pyReprStr s
  | PyVal.list l => "[" ++ pyJoin ", " (l.map pyReprStr) ++ "]"

/-- The public (view-layer) values of a base-model instance, in
get_view_fields order, with the main field exposed under the id key:
id, label, description, alt_labels, conformance. -/
def publicValues (obj : Instance) : List PyVal :=
  [obj.id, obj.label, obj.description, obj.alt_labels, obj.conformance]

/-- str(haystack.values()) for the public dictionary of an instance (the
outward serialisation layer is treated as the opaque shaping collaborator
the specification declares it to be: it exposes exactly the public
attribute values). -/
def strDictValues (obj : Instance) : String :=
  "dict_values([" ++ pyJoin ", " ((publicValues obj).map pyReprVal) ++ "])"

/-- Python "needle in haystack" on strings. -/
def strContains (hay needle : String) : Bool :=
  decide (needle.data <:+: hay.data)

/-- utils.dict_has_substring applied to an instance's public dictionary:
every whitespace-separated token of the lowercased needle occurs in the
lowercased text of the dictionary values. -/
def dict_has_substring (obj : Instance) (needle : String) : Bool :=
  (pyWords (pyLower needle).data).all
    (fun tok => strContains (pyLower (strDictValues obj)) (String.mk tok))

/-- WikidataItemBase.search: fetch the whole collection (all pages,
non-minimal) and keep the instances matching the search string. -/
def search_model (exec : WDRequest → List Row) (fuel : Nat)
    (searchString : String) (language : Option String := Option.none) :
    Except String (List Instance) := do
  let out ← get_all_model exec fuel Option.none Option.none Option.none false [] language
  Except.ok (out.2.filter (fun o => dict_has_substring o searchString))

/-! ## Generic helper lemmas -/

theorem strData (a b : String) : (a ++ b).data = a.data ++ b.data := rfl

theorem headq_append (a b : List Char) :
    (a ++ b).head? = a.head?.or b.head? := by
  cases a <;> rfl

/-- Whether a string is an OPTIONAL-wrapped fragment. -/
def optWrapped (s : String) : Prop := ∃ t, s = Field.optionalWrap t

theorem optionalWrap_head (t : String) :
    (Field.optionalWrap t).data.head? = some 'O' := rfl

theorem not_wrapped_of_head_ne {s : String} (h : s.data.head? ≠ some 'O') :
    ¬ optWrapped s := by
  rintro ⟨t, rfl⟩
  exact h (optionalWrap_head t)

theorem pyJoin_head_ne (c : Char) (sep : String) (hsep : sep.data.head? ≠ some c) :
    ∀ l : List String, (∀ x ∈ l, x.data.head? ≠ some c) →
      (pyJoin sep l).data.head? ≠ some c := by
  intro l
  induction l with
  | nil => intro _; simp [pyJoin]
  | cons x rest ih =>
    intro h
    cases rest with
    | nil => simpa [pyJoin] using h x (by simp)
    | cons y ys =>
      have hx := h x (by simp)
      have hrest := ih (fun z hz => h z (by simp [hz]))
      simp only [pyJoin, strData, headq_append]
      intro hc
      rcases hx1 : x.data.head? with _ | a
      · rcases hs1 : sep.data.head? with _ | b
        · rw [hx1, hs1] at hc
          exact hrest (by simpa [Option.or] using hc)
        · rw [hx1, hs1] at hc
          simp only [Option.or, Option.some.injEq] at hc
          exact hsep (by rw [hs1, hc])
      · rw [hx1] at hc
        simp only [Option.or, Option.some.injEq] at hc
        exact hx (by rw [hx1, hc])

theorem format_head_ne_O (t : WDTriple) (n pp ep scp : String) :
    (t.format n pp ep scp).data.head? ≠ some 'O' := by
  unfold WDTriple.format
  cases hm : t.minus
  · simp only [hm, if_false, Bool.false_eq_true]
    refine pyJoin_head_ne 'O' " UNION " (by decide) _ ?_
    intro x hx
    simp only [List.mem_map] at hx
    obtain ⟨v, _, rfl⟩ := hx
    intro hcontra
    have : (("\x7b ?" ++ n ++ " " ++ pyOrStr pp t.propPfx ++ ":" ++
        (if t.subclass then t.prop ++ "/" ++ pyOrStr pp t.propPfx ++ ":" ++
          pyOrStr scp t.subclassProp ++ "*" else t.prop) ++ " " ++
        pyOrStr ep t.entityPfx ++ ":" ++ v ++ ".\x7d")).data.head? = some '\x7b' := rfl
    rw [this] at hcontra
    exact absurd (Option.some.inj hcontra) (by decide)
  · intro hcontra
    have : (("MINUS " ++ pyJoin " UNION " (t.values.map (fun v =>
        "\x7b ?" ++ n ++ " " ++ pyOrStr pp t.propPfx ++ ":" ++
        (if t.subclass then t.prop ++ "/" ++ pyOrStr pp t.propPfx ++ ":" ++
          pyOrStr scp t.subclassProp ++ "*" else t.prop) ++ " " ++
        pyOrStr ep t.entityPfx ++ ":" ++ v ++ ".\x7d")))).data.head? = some 'M' := rfl
    simp only [hm, if_true] at hcontra
    rw [this] at hcontra
    exact absurd (Option.some.inj hcontra) (by decide)

/-! ## Claim C1 -/

/-- The filter-rendering operation claim C1 speaks about:
to_wikidata_outer_filter for the alternative-label variant,
to_wikidata_filter for every other variant. -/
def filterRender (f : Field) (pp ep scp language : String) : Except String String :=
  match f.kind with
  | FieldKind.altLabel => Except.ok (f.to_wikidata_outer_filter language)
  | _ => f.to_wikidata_filter pp ep scp

/-- Claim C1: for every field variant whose filter-rendering operation
(to_wikidata_filter, or to_wikidata_outer_filter for the alt-label
variant) produces a non-empty fragment, a field with required=False
renders the fragment wrapped in an OPTIONAL block, and a field with
required=True never does. -/
theorem required_controls_optional_wrapping (f : Field) (pp ep scp language s : String)
    (hok : filterRender f pp ep scp language = Except.ok s) (hne : s ≠ "") :
    (f.required = false → optWrapped s) ∧ (f.required = true → ¬ optWrapped s) := by
  obtain ⟨k, e, props, vals, d, req, pub, siml, sep, nm, wf⟩ := f
  cases k with
  | base =>
    cases props with
    | none => simp [filterRender, Field.to_wikidata_filter] at hok
    | some ps =>
      cases hps : ps.isEmpty with
      | true => simp [filterRender, Field.to_wikidata_filter, hps] at hok
      | false =>
        cases req with
        | false =>
          simp [filterRender, Field.to_wikidata_filter, hps] at hok
          exact ⟨fun _ => ⟨_, hok.symm⟩, fun h => by simp at h⟩
        | true =>
          simp [filterRender, Field.to_wikidata_filter, hps] at hok
          refine ⟨fun h => by simp at h, fun _ => ?_⟩
          rw [← hok]
          refine not_wrapped_of_head_ne fun hcon => ?_
          exact absurd (show (some '?' : Option Char) = some 'O' from hcon) (by decide)
  | label =>
    simp [filterRender, Field.to_wikidata_filter] at hok
    exact absurd hok.symm hne
  | description =>
    simp [filterRender, Field.to_wikidata_filter] at hok
    exact absurd hok.symm hne
  | conformance =>
    simp [filterRender, Field.to_wikidata_filter] at hok
    exact absurd hok.symm hne
  | altLabel =>
    cases req with
    | false =>
      simp [filterRender, Field.to_wikidata_outer_filter] at hok
      exact ⟨fun _ => ⟨_, hok.symm⟩, fun h => by simp at h⟩
    | true =>
      simp [filterRender, Field.to_wikidata_outer_filter] at hok
      refine ⟨fun h => by simp at h, fun _ => ?_⟩
      rw [← hok]
      refine not_wrapped_of_head_ne fun hcon => ?_
      exact absurd (show (some '?' : Option Char) = some 'O' from hcon) (by decide)
  | entity ts =>
    cases req with
    | false =>
      simp [filterRender, Field.to_wikidata_filter] at hok
      exact ⟨fun _ => ⟨_, hok.symm⟩, fun h => by simp at h⟩
    | true =>
      simp [filterRender, Field.to_wikidata_filter] at hok
      refine ⟨fun h => by simp at h, fun _ => ?_⟩
      rw [← hok]
      refine not_wrapped_of_head_ne (pyJoin_head_ne 'O' " " (by decide) _ ?_)
      intro x hx
      simp only [List.mem_map] at hx
      obtain ⟨t, _, rfl⟩ := hx
      exact format_head_ne_O t _ pp ep scp
  | mainEntity ts =>
    cases req with
    | false =>
      simp [filterRender, Field.to_wikidata_filter] at hok
      exact ⟨fun _ => ⟨_, hok.symm⟩, fun h => by simp at h⟩
    | true =>
      simp [filterRender, Field.to_wikidata_filter] at hok
      refine ⟨fun h => by simp at h, fun _ => ?_⟩
      rw [← hok]
      refine not_wrapped_of_head_ne (pyJoin_head_ne 'O' " " (by decide) _ ?_)
      intro x hx
      simp only [List.mem_map] at hx
      obtain ⟨t, _, rfl⟩ := hx
      exact format_head_ne_O t _ pp ep scp
  | entityFilter =>
    cases req with
    | false =>
      simp [filterRender, Field.to_wikidata_filter] at hok
      exact ⟨fun _ => ⟨_, hok.symm⟩, fun h => by simp at h⟩
    | true =>
      simp [filterRender, Field.to_wikidata_filter] at hok
      refine ⟨fun h => by simp at h, fun _ => ?_⟩
      rw [← hok]
      refine not_wrapped_of_head_ne fun hcon => ?_
      exact absurd (show (some '?' : Option Char) = some 'O' from hcon) (by decide)
  | list =>
    cases req with
    | false =>
      simp [filterRender, Field.to_wikidata_filter] at hok
      exact ⟨fun _ => ⟨_, hok.symm⟩, fun h => by simp at h⟩
    | true =>
      simp [filterRender, Field.to_wikidata_filter] at hok
      refine ⟨fun h => by simp at h, fun _ => ?_⟩
      rw [← hok]
      refine not_wrapped_of_head_ne fun hcon => ?_
      exact absurd (show (some '?' : Option Char) = some 'O' from hcon) (by decide)
  | entityList =>
    cases req with
    | false =>
      simp [filterRender, Field.to_wikidata_filter] at hok
      exact ⟨fun _ => ⟨_, hok.symm⟩, fun h => by simp at h⟩
    | true =>
      simp [filterRender, Field.to_wikidata_filter] at hok
      refine ⟨fun h => by simp at h, fun _ => ?_⟩
      rw [← hok]
      refine not_wrapped_of_head_ne fun hcon => ?_
      exact absurd (show (some '?' : Option Char) = some 'O' from hcon) (by decide)
  | schemaAbout url =>
    cases req with
    | false =>
      simp [filterRender, Field.to_wikidata_filter] at hok
      exact ⟨fun _ => ⟨_, hok.symm⟩, fun h => by simp at h⟩
    | true =>
      simp [filterRender, Field.to_wikidata_filter] at hok
      refine ⟨fun h => by simp at h, fun _ => ?_⟩
      rw [← hok]
      refine not_wrapped_of_head_ne fun hcon => ?_
      exact absurd (show (some '?' : Option Char) = some 'O' from hcon) (by decide)


/-- A concrete base field used to instantiate claim C1. -/
def c1Field : Field :=
  { kind := FieldKind.base, properties := some ["P31"], name := some "x" }

theorem required_controls_optional_wrapping_witness :
    (c1Field.required = false → optWrapped "OPTIONAL \x7b ?main wdt:P31 ?x. \x7d") ∧
    (c1Field.required = true → ¬ optWrapped "OPTIONAL \x7b ?main wdt:P31 ?x. \x7d") :=
  required_controls_optional_wrapping c1Field "wdt" "wd" "P279" "en"
    "OPTIONAL \x7b ?main wdt:P31 ?x. \x7d" rfl (by decide)

/-! ## Claims C4 and C5 -/

/-- The row misses the field's variable, or the binding lacks a value. -/
def bindingMissing (f : Field) (row : Row) : Prop :=
  match rowGet row f.pyName with
  | Option.none => True
  | some b => b.value = Option.none

theorem get_missing (f : Field) (row : Row) (h : bindingMissing f row) (d : PyVal) :
    get_wikidata_field row f.pyName d = d := by
  unfold bindingMissing at h
  unfold get_wikidata_field
  cases hr : rowGet row f.pyName with
  | none => rfl
  | some b =>
    rw [hr] at h
    have h2 : b.value = Option.none := h
    show (match b.value with
      | Option.none => d
      | some v => PyVal.str v) = d
    rw [h2]

/-- The list-valued variants of fields.py. -/
def FieldKind.isListLike : FieldKind → Bool
  | FieldKind.list | FieldKind.altLabel | FieldKind.entityList => true
  | _ => false

/-- The entity-valued variants of fields.py. -/
def FieldKind.isEntityLike : FieldKind → Bool
  | FieldKind.entity _ | FieldKind.mainEntity _ => true
  | _ => false

/-- What from_wikidata computes on a row where the field's variable is
absent (the value falls back to the configured default before the
variant-specific post-processing). -/
def missingDecode (f : Field) : Except String PyVal :=
  match f.kind with
  | FieldKind.entity _ | FieldKind.mainEntity _ =>
    extract_from_string_by_regex entityLeads f.default f.default
  | FieldKind.list | FieldKind.altLabel | FieldKind.entityList =>
    if f.default.truthy then
      match f.default with
      | PyVal.str s => Except.ok (PyVal.list (pySplit s f.separator))
      | _ => Except.error "AttributeError: object has no attribute split"
    else Except.ok f.default
  | _ => Except.ok f.default

theorem from_wikidata_missing (f : Field) (row : Row) (h : bindingMissing f row) :
    f.from_wikidata row = missingDecode f := by
  have hget := get_missing f row h f.default
  obtain ⟨k, e, props, vals, d, req, pub, siml, sep, nm, wf⟩ := f
  cases k <;> simp_all [Field.from_wikidata, missingDecode]

/-- The concrete entity field of the claim C4 counterexample: an entity
field left at its default configuration (default=None). -/
def c4Field : Field := { kind := FieldKind.entity [], name := some "thing" }

/-- Claim C4 counterexample: decoding a row that misses the variable of an
entity field whose configured default is None raises TypeError inside
re.search instead of returning the default. -/
theorem decode_missing_entity_raises :
    c4Field.default = PyVal.none ∧
    c4Field.from_wikidata [] = Except.error "TypeError: expected string or bytes-like object" ∧
    c4Field.from_wikidata [] ≠ Except.ok c4Field.default :=
  ⟨rfl, rfl, fun hcon => Except.noConfusion hcon⟩

/-- Claim C4 (amended): on a row where the field's variable is absent or
its binding lacks a value, the scalar variants return the configured
default without raising; a list variant returns the default when the
default is falsy, and splits a truthy string default on the separator; an
entity variant passes a string default through the identifier extraction
(returning it unchanged when the regex finds no match), and raises when
the default is None. -/
theorem decode_missing_characterization (f : Field) (row : Row) (h : bindingMissing f row) :
    (f.kind.isListLike = false → f.kind.isEntityLike = false →
      f.from_wikidata row = Except.ok f.default) ∧
    (f.kind.isListLike = true → f.default.truthy = false →
      f.from_wikidata row = Except.ok f.default) ∧
    (f.kind.isListLike = true → ∀ s, f.default = PyVal.str s → f.default.truthy = true →
      f.from_wikidata row = Except.ok (PyVal.list (pySplit s f.separator))) ∧
    (f.kind.isEntityLike = true → ∀ s, f.default = PyVal.str s →
      regexSearchId entityLeads s.data = Option.none →
      f.from_wikidata row = Except.ok (PyVal.str s)) ∧
    (f.kind.isEntityLike = true → f.default = PyVal.none →
      ∃ e, f.from_wikidata row = Except.error e) := by
  rw [from_wikidata_missing f row h]
  obtain ⟨k, e, props, vals, d, req, pub, siml, sp, nm, wf⟩ := f
  cases k
  case list | altLabel | entityList =>
    refine ⟨by simp [FieldKind.isListLike], ?_, ?_,
      by simp [FieldKind.isEntityLike], by simp [FieldKind.isEntityLike]⟩
    · intro _ htr
      simp [missingDecode, htr]
    · intro _ s hs htr
      subst hs
      simp [missingDecode, htr]
  case entity ts =>
    refine ⟨by simp [FieldKind.isEntityLike], by simp [FieldKind.isListLike],
      by simp [FieldKind.isListLike], ?_, ?_⟩
    · intro _ s hs hnone
      subst hs
      simp [missingDecode, extract_from_string_by_regex, hnone]
    · intro _ hd
      simp only at hd
      subst hd
      exact ⟨_, rfl⟩
  case mainEntity ts =>
    refine ⟨by simp [FieldKind.isEntityLike], by simp [FieldKind.isListLike],
      by simp [FieldKind.isListLike], ?_, ?_⟩
    · intro _ s hs hnone
      subst hs
      simp [missingDecode, extract_from_string_by_regex, hnone]
    · intro _ hd
      simp only at hd
      subst hd
      exact ⟨_, rfl⟩
  all_goals
    exact ⟨fun _ _ => rfl, by simp [FieldKind.isListLike],
      by simp [FieldKind.isListLike], by simp [FieldKind.isEntityLike],
      by simp [FieldKind.isEntityLike]⟩

theorem decode_missing_characterization_witness :
    labelFieldLoaded.from_wikidata [] = Except.ok labelFieldLoaded.default :=
  (decode_missing_characterization labelFieldLoaded [] trivial).1 rfl rfl

/-- Claim C5: decoding the binding value
http://www.wikidata.org/entity/Q123 through the entity decode yields the
bare identifier Q123, and whenever the identifier regex finds no match in
a present binding value, the raw value passes through unchanged without
raising. -/
theorem entity_url_decode :
    mainFieldLoaded.from_wikidata
        [("main", ⟨some "http://www.wikidata.org/entity/Q123"⟩)] =
      Except.ok (PyVal.str "Q123") ∧
    ∀ (f : Field) (row : Row) (s : String), f.kind.isEntityLike = true →
      rowGet row f.pyName = some ⟨some s⟩ →
      regexSearchId entityLeads s.data = Option.none →
      f.from_wikidata row = Except.ok (PyVal.str s) := by
  constructor
  · rfl
  · intro f row s hk hr hnone
    have hget : get_wikidata_field row f.pyName f.default = PyVal.str s := by
      unfold get_wikidata_field
      rw [hr]
    obtain ⟨k, e, props, vals, d, req, pub, siml, sp, nm, wf⟩ := f
    cases k
    all_goals try (simp [FieldKind.isEntityLike] at hk)
    all_goals
      simp only [Field.from_wikidata]
      rw [hget]
      simp [extract_from_string_by_regex, hnone]

theorem entity_url_decode_witness :
    c4Field.from_wikidata [("thing", ⟨some "no-identifier-here"⟩)] =
      Except.ok (PyVal.str "no-identifier-here") :=
  entity_url_decode.2 c4Field [("thing", ⟨some "no-identifier-here"⟩)]
    "no-identifier-here" rfl rfl rfl

/-! ## Claim C8 -/

/-- A compiled query of 999 characters. -/
def c8Query : String := String.mk (List.replicate 999 'a')

set_option maxRecDepth 40000 in
/-- Claim C8 counterexample: a compiled query shorter than the
1000-character threshold is nevertheless sent via POST, because
_execute_query measures the decorated query (the compiled query plus the
27-character tool comment). -/
theorem get_post_threshold_counterexample :
    c8Query.length < 1000 ∧
    (execute_query_request c8Query).method = HttpMethod.post := by
  constructor
  · show (List.replicate 999 'a').length < 1000
    simp
  · rfl

theorem string_length_append (a b : String) :
    (a ++ b).length = a.length + b.length := by
  show (a.data ++ b.data).length = a.data.length + b.data.length
  exact List.length_append a.data b.data

/-- Claim C8 (amended): the request uses GET with a format=json parameter
exactly when the decorated query (tool comment plus compiled query, 27
characters longer than the compiled query) is shorter than the
1000-character threshold, POST with the bare form body otherwise, and both
paths carry the Accept header and the configured User-Agent. -/
theorem get_post_threshold (query sparqlEndpoint userAgent : String) :
    ((execute_query_request query sparqlEndpoint userAgent).method = HttpMethod.get ↔
      toolComment.length + query.length < queryMaxGetRequestLength) ∧
    ((execute_query_request query sparqlEndpoint userAgent).method = HttpMethod.get →
      (execute_query_request query sparqlEndpoint userAgent).data =
        [("query", toolComment ++ query), ("format", "json")]) ∧
    ((execute_query_request query sparqlEndpoint userAgent).method = HttpMethod.post →
      (execute_query_request query sparqlEndpoint userAgent).data =
        [("query", toolComment ++ query)]) ∧
    (execute_query_request query sparqlEndpoint userAgent).headers =
      [("Accept", "application/sparql-results+json"),
       ("User-Agent", pyOrStr userAgent metaUserAgent)] := by
  have hreq : execute_query_request query sparqlEndpoint userAgent =
      if (toolComment ++ query).length < queryMaxGetRequestLength then
        { method := HttpMethod.get,
          url := pyOrStr sparqlEndpoint WIKIDATA_SPARQL_ENDPOINT,
          data := [("query", toolComment ++ query), ("format", "json")],
          headers := [("Accept", "application/sparql-results+json"),
            ("User-Agent", pyOrStr userAgent metaUserAgent)] }
      else
        { method := HttpMethod.post,
          url := pyOrStr sparqlEndpoint WIKIDATA_SPARQL_ENDPOINT,
          data := [("query", toolComment ++ query)],
          headers := [("Accept", "application/sparql-results+json"),
            ("User-Agent", pyOrStr userAgent metaUserAgent)] } := rfl
  rw [hreq, string_length_append]
  by_cases hc : toolComment.length + query.length < queryMaxGetRequestLength
  · rw [if_pos hc]
    simp [hc]
  · rw [if_neg hc]
    simp [hc]

/-! ## Claim C9 -/

/-- Claim C9: rendering the default filter fragment with an absent or
empty properties list fails immediately with the configuration assertion,
and constructing a WDTriple with more than one object value together with
the negation flag fails immediately in the constructor. -/
theorem config_errors_fail_fast :
    (∀ (f : Field) (pp ep scp : String), f.kind = FieldKind.base →
      (f.properties = Option.none ∨ f.properties = some []) →
      f.to_wikidata_filter pp ep scp =
        Except.error "AssertionError: There are no properties associated with this field.") ∧
    (∀ (prop : String) (values : List String) (subclass minus : Bool)
        (pp ep scp : String), 1 < values.length → minus = true →
      WDTriple.init prop values subclass minus pp ep scp =
        Except.error "AssertionError: Union and Minus should not be used in the same clause") := by
  constructor
  · intro f pp ep scp hk hprops
    obtain ⟨k, e, props, vals, d, req, pub, siml, sep, nm, wf⟩ := f
    simp only at hk
    subst hk
    rcases hprops with hp | hp <;> simp only at hp <;> subst hp <;>
      simp [Field.to_wikidata_filter]
  · intro prop values subclass minus pp ep scp hlen hm
    subst hm
    unfold WDTriple.init
    rw [if_pos]
    simp [hlen]

theorem config_errors_fail_fast_witness :
    (({ kind := FieldKind.base, properties := some [] } : Field).to_wikidata_filter
        "wdt" "wd" "P279" =
      Except.error "AssertionError: There are no properties associated with this field.") ∧
    (WDTriple.init "P31" ["Q1", "Q2"] false true "wdt" "wd" "P279" =
      Except.error "AssertionError: Union and Minus should not be used in the same clause") :=
  ⟨config_errors_fail_fast.1 { kind := FieldKind.base, properties := some [] }
      "wdt" "wd" "P279" rfl (Or.inr rfl),
   config_errors_fail_fast.2 "P31" ["Q1", "Q2"] false true "wdt" "wd" "P279"
      (by decide) rfl⟩

/-! ## Claim C10 -/

theorem labelLoaded_decode (row : Row) :
    labelFieldLoaded.from_wikidata row =
      Except.ok (get_wikidata_field row "label" PyVal.none) := rfl

theorem descriptionLoaded_decode (row : Row) :
    descriptionFieldLoaded.from_wikidata row =
      Except.ok (get_wikidata_field row "description" PyVal.none) := rfl

theorem conformanceLoaded_decode (row : Row) :
    conformanceFieldLoaded.from_wikidata row =
      Except.ok (get_wikidata_field row "conformance" PyVal.none) := rfl

theorem get_default_or_str (row : Row) (k : String) (d : PyVal) :
    get_wikidata_field row k d = d ∨ ∃ s, get_wikidata_field row k d = PyVal.str s := by
  cases hr : rowGet row k with
  | none =>
    refine Or.inl ?_
    unfold get_wikidata_field
    rw [hr]
  | some b =>
    cases hv : b.value with
    | none =>
      refine Or.inl ?_
      unfold get_wikidata_field
      rw [hr]
      show (match b.value with
        | Option.none => d
        | some v => PyVal.str v) = d
      rw [hv]
    | some v =>
      refine Or.inr ⟨v, ?_⟩
      unfold get_wikidata_field
      rw [hr]
      show (match b.value with
        | Option.none => d
        | some u => PyVal.str u) = PyVal.str v
      rw [hv]

theorem altLoaded_decode_eq (row : Row) :
    altLabelsFieldLoaded.from_wikidata row =
      (if (get_wikidata_field row "alt_labels" (PyVal.list [])).truthy then
        match get_wikidata_field row "alt_labels" (PyVal.list []) with
        | PyVal.str s => Except.ok (PyVal.list (pySplit s "|"))
        | _ => Except.error "AttributeError: object has no attribute split"
      else Except.ok (PyVal.list [])) := rfl

theorem altLoaded_decode_ok (row : Row) :
    ∃ w, altLabelsFieldLoaded.from_wikidata row = Except.ok w := by
  rw [altLoaded_decode_eq]
  rcases get_default_or_str row "alt_labels" (PyVal.list []) with hget | ⟨s, hget⟩
  · rw [hget]
    exact ⟨PyVal.list [], rfl⟩
  · rw [hget]
    by_cases he : s.data.isEmpty
    · refine ⟨PyVal.list [], ?_⟩
      simp [PyVal.truthy, he]
    · refine ⟨PyVal.list (pySplit s "|"), ?_⟩
      simp [PyVal.truthy, he]

/-- Claim C10: every instance the decode path returns has id equal to the
decoded main value and that value truthy (non-empty); when the main field
decodes to an absent or empty value, the decode path raises instead of
returning an instance. -/
theorem decoded_instance_id (row : Row) :
    (∀ inst, from_wikidata_model row = Except.ok inst →
      inst.id = inst.main ∧ mainFieldLoaded.from_wikidata row = Except.ok inst.id ∧
        inst.id.truthy = true) ∧
    (∀ v, mainFieldLoaded.from_wikidata row = Except.ok v → v.truthy = false →
      ∃ err, from_wikidata_model row = Except.error err) ∧
    (∀ err, mainFieldLoaded.from_wikidata row = Except.error err →
      from_wikidata_model row = Except.error err) := by
  obtain ⟨w, hw⟩ := altLoaded_decode_ok row
  cases hmain : mainFieldLoaded.from_wikidata row with
  | error e =>
    have hmodel : from_wikidata_model row = Except.error e := by
      unfold from_wikidata_model
      rw [hmain]
      rfl
    refine ⟨fun inst hinst => ?_, fun v hv htr => ?_, fun err herr => ?_⟩
    · rw [hmodel] at hinst
      cases hinst
    · exact Except.noConfusion hv
    · injection herr with h
      subst h
      exact hmodel
  | ok v =>
    have hmodel : from_wikidata_model row =
        if v.truthy then
          Except.ok (Instance.mk v (get_wikidata_field row "label" PyVal.none)
            (get_wikidata_field row "description" PyVal.none) w
            (get_wikidata_field row "conformance" PyVal.none) v)
        else Except.error "AssertionError: Wikidata Item Must Have Identifier" := by
      unfold from_wikidata_model
      rw [hmain, labelLoaded_decode, descriptionLoaded_decode, hw, conformanceLoaded_decode]
      rfl
    cases hv : v.truthy with
    | true =>
      rw [hv, if_pos rfl] at hmodel
      refine ⟨fun inst hinst => ?_, fun v2 hv2 htr => ?_, fun err herr => ?_⟩
      · rw [hmodel] at hinst
        injection hinst with h
        subst h
        exact ⟨rfl, rfl, hv⟩
      · injection hv2 with h
        subst h
        rw [hv] at htr
        cases htr
      · exact Except.noConfusion herr
    | false =>
      rw [hv] at hmodel
      simp only [Bool.false_eq_true, if_false] at hmodel
      refine ⟨fun inst hinst => ?_, fun v2 hv2 htr => ?_, fun err herr => ?_⟩
      · rw [hmodel] at hinst
        cases hinst
      · exact ⟨_, hmodel⟩
      · exact Except.noConfusion herr

/-! ## Claim C3 -/

theorem decodeRows_ok (rows : List Row)
    (h : ∀ r ∈ rows, ∃ i, from_wikidata_model r = Except.ok i) :
    ∃ l, decodeRows rows = Except.ok l ∧ l.length = rows.length := by
  induction rows with
  | nil => exact ⟨[], rfl, rfl⟩
  | cons r rs ih =>
    obtain ⟨i, hi⟩ := h r (by simp)
    obtain ⟨l, hl, hlen⟩ := ih (fun r2 hr2 => h r2 (by simp [hr2]))
    refine ⟨i :: l, ?_, by simp [hlen]⟩
    unfold decodeRows
    rw [hi, hl]
    rfl

theorem foldl_mergeStep_length :
    ∀ (l acc : List Instance), (l.foldl mergeStep acc).length ≤ acc.length + l.length := by
  intro l
  induction l with
  | nil => intro acc; simp
  | cons a l ih =>
    intro acc
    have h1 : (mergeStep acc a).length ≤ acc.length + 1 := by
      unfold mergeStep
      by_cases h : acc.any (fun y => y.id == a.id)
      · rw [if_pos h]; omega
      · rw [if_neg h]; simp
    have h2 : (List.foldl mergeStep acc (a :: l)).length =
        (List.foldl mergeStep (mergeStep acc a) l).length := rfl
    have h3 := ih (mergeStep acc a)
    simp only [List.length_cons]
    omega

theorem mergeDuplicates_length_le (l : List Instance) :
    (mergeDuplicates l).length ≤ l.length := by
  have := foldl_mergeStep_length l []
  simpa [mergeDuplicates] using this

theorem foldl_mergeStep_nodup :
    ∀ (l acc : List Instance), (acc.map Instance.id).Nodup →
      ((l.foldl mergeStep acc).map Instance.id).Nodup := by
  intro l
  induction l with
  | nil => intro acc h; simpa using h
  | cons a l ih =>
    intro acc h
    refine ih _ ?_
    unfold mergeStep
    by_cases hany : acc.any (fun y => y.id == a.id)
    · rw [if_pos hany]; exact h
    · rw [if_neg hany]
      simp only [List.any_eq_true, beq_iff_eq, not_exists, not_and] at hany
      rw [List.map_append, List.nodup_append]
      refine ⟨h, by simp, ?_⟩
      intro x hx
      simp only [List.mem_map] at hx
      obtain ⟨y, hy, rfl⟩ := hx
      simp only [List.map_cons, List.map_nil, List.mem_singleton]
      exact fun hcon => (hany y hy) hcon

theorem mergeDuplicates_nodup (l : List Instance) :
    ((mergeDuplicates l).map Instance.id).Nodup :=
  foldl_mergeStep_nodup l [] (by simp)

theorem foldl_mergeStep_keepFirst :
    ∀ (l acc : List Instance) (x : Instance), x ∈ l.foldl mergeStep acc →
      x ∈ acc ∨ (l.find? (fun y => y.id == x.id) = some x ∧
        ∀ y ∈ acc, (y.id == x.id) = false) := by
  intro l
  induction l with
  | nil => intro acc x hx; exact Or.inl hx
  | cons a l ih =>
    intro acc x hx
    rcases ih (mergeStep acc a) x hx with hmem | ⟨hfind, hnone⟩
    · unfold mergeStep at hmem
      by_cases hany : acc.any (fun y => y.id == a.id)
      · rw [if_pos hany] at hmem
        exact Or.inl hmem
      · rw [if_neg hany] at hmem
        rcases List.mem_append.mp hmem with h1 | h2
        · exact Or.inl h1
        · simp only [List.mem_singleton] at h2
          subst h2
          refine Or.inr ⟨?_, ?_⟩
          · rw [List.find?_cons_of_pos _ (by simp)]
          · intro y hy
            simp only [List.any_eq_true] at hany
            cases hb : (y.id == x.id) with
            | false => rfl
            | true => exact absurd ⟨y, hy, hb⟩ hany
    · have hmemStep : ∀ y ∈ acc, y ∈ mergeStep acc a := by
        intro y hy
        unfold mergeStep
        by_cases hany : acc.any (fun yy => yy.id == a.id)
        · rw [if_pos hany]; exact hy
        · rw [if_neg hany]; exact List.mem_append.mpr (Or.inl hy)
      have ha : (a.id == x.id) = false := by
        by_cases hany : acc.any (fun yy => yy.id == a.id)
        · simp only [List.any_eq_true] at hany
          obtain ⟨z, hz, hzid⟩ := hany
          have hz2 := hnone z (hmemStep z hz)
          have hza : z.id = a.id := by simpa using hzid
          rw [← hza]
          exact hz2
        · apply hnone
          unfold mergeStep
          rw [if_neg hany]
          exact List.mem_append.mpr (Or.inr (by simp))
      refine Or.inr ⟨?_, fun y hy => hnone y (hmemStep y hy)⟩
      rw [List.find?_cons_of_neg _ (by simp [ha])]
      exact hfind

theorem mergeDuplicates_keepFirst (l : List Instance) :
    ∀ x ∈ mergeDuplicates l, l.find? (fun y => y.id == x.id) = some x := by
  intro x hx
  rcases foldl_mergeStep_keepFirst l [] x hx with h | ⟨h, _⟩
  · simp at h
  · exact h

theorem decoded_instance_id_witness :
    ({ main := PyVal.str "Q123", label := PyVal.str "Test Item",
       description := PyVal.str "Some Test Description",
       alt_labels := PyVal.list [], conformance := PyVal.none,
       id := PyVal.str "Q123" } : Instance).id =
        ({ main := PyVal.str "Q123", label := PyVal.str "Test Item",
           description := PyVal.str "Some Test Description",
           alt_labels := PyVal.list [], conformance := PyVal.none,
           id := PyVal.str "Q123" } : Instance).main ∧
      mainFieldLoaded.from_wikidata
          [("main", ⟨some "http://www.wikidata.org/entity/Q123"⟩),
           ("label", ⟨some "Test Item"⟩),
           ("description", ⟨some "Some Test Description"⟩),
           ("alt_labels", ⟨some ""⟩)] =
        Except.ok (PyVal.str "Q123") ∧
      (PyVal.str "Q123").truthy = true :=
  (decoded_instance_id _).1 _ rfl


def c3Req (vs : List String) (a b : Nat) : WDRequest :=
  { values := some (pySlice vs a b), limit := 2, minimal := true, offset := 0,
    language := Option.none }

theorem pagination_exhaustion (vs : List String) (exec : WDRequest → List Row) (k : Nat)
    (hlen : vs.length = 5)
    (hexec : ∀ (req : WDRequest) (l : List String), req.values = some l →
      (exec req).length = l.length ∧
      ∀ r ∈ exec req, ∃ i, from_wikidata_model r = Except.ok i) :
    ∃ raw merged,
      get_all_model exec (k + 3) Option.none (some 2) Option.none true vs Option.none =
        Except.ok ([c3Req vs 0 2, c3Req vs 2 4, c3Req vs 4 6], merged) ∧
      merged = mergeDuplicates raw ∧ raw.length = 5 ∧
      merged.length ≤ 5 ∧ (merged.map Instance.id).Nodup ∧
      ∀ x ∈ merged, raw.find? (fun y => y.id == x.id) = some x := by
  have hne : vs.isEmpty = false := by
    cases vs with
    | nil => simp at hlen
    | cons a t => rfl
  have hs1 : (pySlice vs 0 2).length = 2 := by simp [pySlice]; omega
  have hs2 : (pySlice vs 2 4).length = 2 := by simp [pySlice]; omega
  have hs3 : (pySlice vs 4 6).length = 1 := by simp [pySlice]; omega
  obtain ⟨hlen1, hdec1⟩ := hexec (c3Req vs 0 2) _ rfl
  obtain ⟨l1, hl1, hlen1b⟩ := decodeRows_ok _ hdec1
  obtain ⟨hlen2, hdec2⟩ := hexec (c3Req vs 2 4) _ rfl
  obtain ⟨l2, hl2, hlen2b⟩ := decodeRows_ok _ hdec2
  obtain ⟨hlen3, hdec3⟩ := hexec (c3Req vs 4 6) _ rfl
  obtain ⟨l3, hl3, hlen3b⟩ := decodeRows_ok _ hdec3
  have hloop3 : getAllLoop exec true 2 Option.none vs Option.none false false
      (some 5) (k + 1) 3 (some 1) = Except.ok ([c3Req vs 4 6], l3) := by
    unfold getAllLoop
    simp only [c3Req] at hl3 hlen3
    norm_num [hne, optNatTruthy, hl3, hlen3, hs3, c3Req, pageRequest, Except.bind,
      (show Int.toNat 2 = 2 from rfl)]
    rfl
  have hloop2 : getAllLoop exec true 2 Option.none vs Option.none false false
      (some 5) (k + 2) 2 (some 3) =
      Except.ok ([c3Req vs 2 4, c3Req vs 4 6], l2 ++ l3) := by
    unfold getAllLoop
    simp only [c3Req] at hl2 hlen2
    norm_num [hne, optNatTruthy, hl2, hlen2, hs2, c3Req, pageRequest, Except.bind,
      (show Int.toNat 2 = 2 from rfl)]
    rw [hloop3]
    rfl
  have hloop1 : getAllLoop exec true 2 Option.none vs Option.none false false
      (some 5) (k + 3) 1 (some 5) =
      Except.ok ([c3Req vs 0 2, c3Req vs 2 4, c3Req vs 4 6], l1 ++ (l2 ++ l3)) := by
    unfold getAllLoop
    simp only [c3Req] at hl1 hlen1
    norm_num [hne, optNatTruthy, hl1, hlen1, hs1, c3Req, pageRequest, Except.bind,
      (show Int.toNat 2 = 2 from rfl)]
    rw [hloop2]
    rfl
  refine ⟨l1 ++ (l2 ++ l3), mergeDuplicates (l1 ++ (l2 ++ l3)), ?_, rfl, ?_, ?_,
    mergeDuplicates_nodup _, mergeDuplicates_keepFirst _⟩
  · unfold get_all_model
    norm_num [hne, hlen, hloop1, Except.bind, c3Req]
    rfl
  · rw [List.length_append, List.length_append, hlen1b, hlen2b, hlen3b,
      hlen1, hlen2, hlen3, hs1, hs2, hs3]
  · have h5 : (l1 ++ (l2 ++ l3)).length = 5 := by
      rw [List.length_append, List.length_append, hlen1b, hlen2b, hlen3b,
        hlen1, hlen2, hlen3, hs1, hs2, hs3]
    have := mergeDuplicates_length_le (l1 ++ (l2 ++ l3))
    omega
theorem pageRequest_offset_zero (minimal : Bool) (pageSize : Nat)
    (limit : Option Nat) (values : List String) (language : Option String)
    (page : Nat) (remaining : Option Int) :
    (pageRequest minimal pageSize limit values language page remaining).values.isSome = true →
    (pageRequest minimal pageSize limit values language page remaining).offset = 0 := by
  unfold pageRequest
  by_cases hv : values.isEmpty <;> simp [hv]

def c3Vs : List String := ["Q1", "Q2", "Q3", "Q4", "Q5"]

def c3Row : Row := [("main", ⟨some "Q7"⟩)]

def c3Exec : WDRequest → List Row := fun req =>
  match req.values with
  | some l => l.map (fun _ => c3Row)
  | Option.none => []

theorem pagination_exhaustion_witness :
    ∃ raw merged,
      get_all_model c3Exec (0 + 3) Option.none (some 2) Option.none true c3Vs
          Option.none =
        Except.ok ([c3Req c3Vs 0 2, c3Req c3Vs 2 4, c3Req c3Vs 4 6], merged) ∧
      merged = mergeDuplicates raw ∧ raw.length = 5 ∧
      merged.length ≤ 5 ∧ (merged.map Instance.id).Nodup ∧
      ∀ x ∈ merged, raw.find? (fun y => y.id == x.id) = some x := by
  refine pagination_exhaustion c3Vs c3Exec 0 rfl ?_
  intro req l hv
  constructor
  · simp [c3Exec, hv]
  · intro r hr
    simp only [c3Exec, hv, List.mem_map] at hr
    obtain ⟨v, _, rfl⟩ := hr
    exact ⟨_, rfl⟩

/-! ## Claim C7 -/

theorem strMkData (l : List Char) : (String.mk l).data = l := rfl

/-- The two response rows of the search scenario (the labels are
"Test Item" and "Some Other Item"). -/
def c7Row1 : Row :=
  [("main", ⟨some "http://www.wikidata.org/entity/Q123"⟩),
   ("mainLabel", ⟨some "Test Item"⟩),
   ("label", ⟨some "Test Item"⟩),
   ("description", ⟨some "Some Test Description"⟩),
   ("alt_labels", ⟨some ""⟩)]

def c7Row2 : Row :=
  [("main", ⟨some "http://www.wikidata.org/entity/Q321"⟩),
   ("mainLabel", ⟨some "Some Other Item"⟩),
   ("label", ⟨some "Some Other Item"⟩),
   ("description", ⟨some "Some Other Test Description"⟩),
   ("alt_labels", ⟨some "alt name 1|alt name 2"⟩)]

/-- An endpoint returning the two rows on the first page and nothing
afterwards. -/
def c7Exec : WDRequest → List Row := fun req =>
  if req.offset = 0 then [c7Row1, c7Row2] else []

def c7InstTest : Instance :=
  { main := PyVal.str "Q123", label := PyVal.str "Test Item",
    description := PyVal.str "Some Test Description",
    alt_labels := PyVal.list [], conformance := PyVal.none,
    id := PyVal.str "Q123" }

def c7InstOther : Instance :=
  { main := PyVal.str "Q321", label := PyVal.str "Some Other Item",
    description := PyVal.str "Some Other Test Description",
    alt_labels := PyVal.list ["alt name 1", "alt name 2"],
    conformance := PyVal.none, id := PyVal.str "Q321" }

def c7Reqs : List WDRequest :=
  [{ values := Option.none, limit := 100, minimal := false, offset := 0,
     language := Option.none },
   { values := Option.none, limit := 100, minimal := false, offset := 100,
     language := Option.none }]

set_option maxRecDepth 200000 in
/-- Claim C7: search returns exactly the fetched instances for which every
whitespace-separated token of the (case-insensitively compared) query
string occurs in the flattened textual representation of the public field
values — a logical AND across tokens, not a phrase match; in particular,
searching "some other item" over instances labelled "Test Item" and
"Some Other Item" returns exactly the second. -/
theorem search_token_and_scenario :
    (∀ (exec : WDRequest → List Row) (fuel : Nat) (qs : String)
        (lang : Option String) (out : List WDRequest × List Instance),
      get_all_model exec fuel Option.none Option.none Option.none false [] lang =
        Except.ok out →
      search_model exec fuel qs lang =
        Except.ok (out.2.filter (fun o => dict_has_substring o qs)) ∧
      ∀ o, o ∈ out.2.filter (fun o => dict_has_substring o qs) ↔
        (o ∈ out.2 ∧ ∀ tok ∈ pyWords (pyLower qs).data,
          tok <:+: (pyLower (strDictValues o)).data)) ∧
    (search_model c7Exec 2 "some other item" Option.none =
        Except.ok [c7InstOther] ∧
      c7InstOther.label = PyVal.str "Some Other Item" ∧
      get_all_model c7Exec 2 Option.none Option.none Option.none false []
          Option.none =
        Except.ok (c7Reqs, [c7InstTest, c7InstOther]) ∧
      c7InstTest.label = PyVal.str "Test Item") := by
  constructor
  · intro exec fuel qs lang out h
    constructor
    · unfold search_model
      rw [h]
      rfl
    · intro o
      simp only [List.mem_filter, dict_has_substring, List.all_eq_true,
        strContains, strMkData, decide_eq_true_eq]
  · exact ⟨rfl, rfl, rfl, rfl⟩

set_option maxRecDepth 200000 in
theorem search_token_and_scenario_witness :
    search_model c7Exec 2 "item" Option.none =
      Except.ok ([c7InstTest, c7InstOther].filter
        (fun o => dict_has_substring o "item")) :=
  (search_token_and_scenario.1 c7Exec 2 "item" Option.none
    (c7Reqs, [c7InstTest, c7InstOther]) rfl).1

/-! ## Claim C6 -/

set_option maxRecDepth 200000 in
/-- Claim C6: compiling the base descriptor twice in succession with the
same parameters — the second compile running on the state mutated by the
first (field-name binding, derived public flags, and the wikidata_filter
attribute written by the entity filter rendering) — produces the identical
result: byte-identical query strings and an unchanged state. -/
theorem build_query_idempotent (p : QueryParams) :
    (build_query p baseModelAttrs).bind (fun r => build_query p r.2) =
      build_query p baseModelAttrs := by
  rcases p with ⟨vals, lim, minim, offs, cnt, lang⟩
  cases cnt <;> cases minim <;> rfl


/-! ## Claim C2 machinery: structure of the minified VALUES query -/

theorem takeWhile_isPfx (p : Char → Bool) (l : List Char) : l.takeWhile p <+: l :=
  ⟨l.dropWhile p, List.takeWhile_append_dropWhile p l⟩

theorem takeWhile_append_neg (p : Char → Bool) (c : Char) (hc : p c = false)
    (a b : List Char) : (a ++ c :: b).takeWhile p = a.takeWhile p := by
  induction a with
  | nil => simp [List.takeWhile_cons, hc]
  | cons x xs ih =>
    cases hx : p x with
    | true => simp [List.takeWhile_cons, hx, ih]
    | false => simp [List.takeWhile_cons, hx]

theorem dropWhile_append_neg (p : Char → Bool) (c : Char) (hc : p c = false)
    (a b : List Char) : (a ++ c :: b).dropWhile p = a.dropWhile p ++ c :: b := by
  induction a with
  | nil => simp [List.dropWhile_cons, hc]
  | cons x xs ih =>
    cases hx : p x with
    | true => simp [List.dropWhile_cons, hx, ih]
    | false => simp [List.dropWhile_cons, hx]

theorem dropWhile_head_false (p : Char → Bool) :
    ∀ (l : List Char) (c : Char) (rest : List Char),
      l.dropWhile p = c :: rest → p c = false := by
  intro l
  induction l with
  | nil => intro c rest h; simp [List.dropWhile] at h
  | cons x xs ih =>
    intro c rest h
    cases hx : p x with
    | true =>
      simp only [List.dropWhile_cons, hx, if_true] at h
      exact ih c rest h
    | false =>
      simp only [List.dropWhile_cons, hx, Bool.false_eq_true, if_false] at h
      injection h with h1 h2
      rw [← h1]
      exact hx

theorem pyWordsSpec_nil : pyWordsSpec [] = [] := by
  rw [pyWordsSpec]

theorem pyWordsSpec_cons_ws {c : Char} (hc : isWsC c = true) (b : List Char) :
    pyWordsSpec (c :: b) = pyWordsSpec b := by
  rw [pyWordsSpec]
  simp [hc]

theorem pyWordsSpec_cons_nonws {c : Char} (hc : isWsC c = false) (b : List Char) :
    pyWordsSpec (c :: b) =
      ((c :: b).takeWhile (fun d => !isWsC d)) ::
        pyWordsSpec ((c :: b).dropWhile (fun d => !isWsC d)) := by
  rw [pyWordsSpec]
  simp [hc]

theorem pyWordsSpec_split_aux (c : Char) (hc : isWsC c = true) :
    ∀ (n : Nat) (a b : List Char), a.length ≤ n →
      pyWordsSpec (a ++ c :: b) = pyWordsSpec a ++ pyWordsSpec b := by
  intro n
  induction n with
  | zero =>
    intro a b ha
    have ha0 : a = [] := List.eq_nil_of_length_eq_zero (Nat.le_zero.mp ha)
    subst ha0
    rw [List.nil_append, pyWordsSpec_cons_ws hc, pyWordsSpec_nil, List.nil_append]
  | succ n ih =>
    intro a b ha
    cases a with
    | nil => rw [List.nil_append, pyWordsSpec_cons_ws hc, pyWordsSpec_nil, List.nil_append]
    | cons x xs =>
      cases hx : isWsC x with
      | true =>
        have hxs : xs.length ≤ n := by simp at ha; omega
        rw [List.cons_append, pyWordsSpec_cons_ws hx, ih xs b hxs, pyWordsSpec_cons_ws hx]
      | false =>
        have hcNeg : (fun d => !isWsC d) c = false := by simp [hc]
        have e1 : (x :: xs) ++ c :: b = x :: (xs ++ c :: b) := rfl
        rw [e1, pyWordsSpec_cons_nonws hx, ← e1]
        rw [takeWhile_append_neg _ c hcNeg, dropWhile_append_neg _ c hcNeg]
        rw [pyWordsSpec_cons_nonws hx, List.cons_append]
        congr 1
        have hd : List.dropWhile (fun d => !isWsC d) (x :: xs) =
            List.dropWhile (fun d => !isWsC d) xs := by
          simp [List.dropWhile_cons, hx]
        have hlen : (List.dropWhile (fun d => !isWsC d) xs).length ≤ n :=
          le_trans (dropWhile_len_le _ xs) (by simp at ha; omega)
        rw [hd]
        exact ih _ b hlen

theorem pyWordsSpec_split (c : Char) (hc : isWsC c = true) (a b : List Char) :
    pyWordsSpec (a ++ c :: b) = pyWordsSpec a ++ pyWordsSpec b :=
  pyWordsSpec_split_aux c hc a.length a b le_rfl

theorem pyWordsSpec_all_nonws (l : List Char) (hne : l ≠ [])
    (hall : ∀ x ∈ l, isWsC x = false) : pyWordsSpec l = [l] := by
  cases l with
  | nil => exact absurd rfl hne
  | cons c rest =>
    have hc : isWsC c = false := hall c (by simp)
    rw [pyWordsSpec_cons_nonws hc]
    rw [List.takeWhile_eq_self_iff.mpr (fun x hx => by simp [hall x hx]),
      List.dropWhile_eq_nil_iff.mpr (fun x hx => by simp [hall x hx]),
      pyWordsSpec_nil]

theorem joinWords_append :
    ∀ (xs ys : List (List Char)), xs ≠ [] → ys ≠ [] →
      joinWords (xs ++ ys) = joinWords xs ++ ' ' :: joinWords ys := by
  intro xs
  induction xs with
  | nil => intro ys h _; exact absurd rfl h
  | cons x xs ih =>
    intro ys _ hys
    cases xs with
    | nil =>
      cases ys with
      | nil => exact absurd rfl hys
      | cons y ys2 => rfl
    | cons x2 xs2 =>
      have h1 : joinWords ((x :: x2 :: xs2) ++ ys) =
          x ++ ' ' :: joinWords ((x2 :: xs2) ++ ys) := rfl
      have h2 : joinWords (x :: x2 :: xs2) = x ++ ' ' :: joinWords (x2 :: xs2) := rfl
      rw [h1, ih ys (List.cons_ne_nil x2 xs2) hys, h2]
      simp [List.append_assoc]

theorem mem_joinWords {c : Char} :
    ∀ ws : List (List Char), c ∈ joinWords ws → (∃ w ∈ ws, c ∈ w) ∨ c = ' ' := by
  intro ws
  induction ws with
  | nil => intro h; simp [joinWords] at h
  | cons w ws ih =>
    intro h
    cases ws with
    | nil => exact Or.inl ⟨w, by simp, by simpa [joinWords] using h⟩
    | cons w2 ws2 =>
      have h1 : joinWords (w :: w2 :: ws2) = w ++ ' ' :: joinWords (w2 :: ws2) := rfl
      rw [h1] at h
      rcases List.mem_append.mp h with h1a | h2a
      · exact Or.inl ⟨w, by simp, h1a⟩
      · rcases List.mem_cons.mp h2a with h3 | h4
        · exact Or.inr h3
        · rcases ih h4 with ⟨w3, hw3, hc3⟩ | hsp
          · exact Or.inl ⟨w3, List.mem_cons_of_mem _ hw3, hc3⟩
          · exact Or.inr hsp


/-- No two adjacent characters of the list satisfy the pair predicate. -/
def pairFree (p : Char → Char → Bool) : List Char → Bool
  | [] => true
  | [_] => true
  | x :: y :: rest => !p x y && pairFree p (y :: rest)

theorem pairFree_iff (p : Char → Char → Bool) :
    ∀ l : List Char, (pairFree p l = true ↔
      ∀ x y : Char, [x, y] <:+: l → p x y = false) := by
  intro l
  induction l with
  | nil =>
    constructor
    · intro _ x y h
      have := h.length_le
      simp at this
    · intro _; rfl
  | cons a l ih =>
    cases l with
    | nil =>
      constructor
      · intro _ x y h
        have := h.length_le
        simp at this
      · intro _; rfl
    | cons b l2 =>
      constructor
      · intro h x y hinf
        have hpf : (!p a b && pairFree p (b :: l2)) = true := h
        rw [Bool.and_eq_true] at hpf
        rcases hpf with ⟨hnab, hrest⟩
        rcases List.infix_cons_iff.mp hinf with hpre | hinf2
        · rcases List.cons_prefix_cons.mp hpre with ⟨hxa, hpre2⟩
          rcases List.cons_prefix_cons.mp hpre2 with ⟨hyb, _⟩
          subst hxa; subst hyb
          simpa using hnab
        · exact (ih.mp hrest) x y hinf2
      · intro h
        have h1 : p a b = false := h a b ⟨[], l2, rfl⟩
        have h2 : pairFree p (b :: l2) = true :=
          ih.mpr (fun x y hinf => h x y (hinf.trans (List.suffix_cons a (b :: l2)).isInfix))
        show (!p a b && pairFree p (b :: l2)) = true
        rw [h1, h2]
        rfl

theorem pairFree_mono (p : Char → Char → Bool) {l m : List Char}
    (h : pairFree p l = true) (hm : m <:+: l) : pairFree p m = true :=
  (pairFree_iff p m).mpr (fun x y hxy => (pairFree_iff p l).mp h x y (hxy.trans hm))

theorem pairFree_of_fst (p : Char → Char → Bool) {l : List Char}
    (h : ∀ x ∈ l, ∀ y, p x y = false) : pairFree p l = true :=
  (pairFree_iff p l).mpr (fun x y hinf => h x (hinf.subset (by simp)) y)

theorem pairFree_cons (p : Char → Char → Bool) (c : Char) (B : List Char)
    (hB : pairFree p B = true) (hc : ∀ y, B.head? = some y → p c y = false) :
    pairFree p (c :: B) = true := by
  cases B with
  | nil => rfl
  | cons b B2 =>
    show (!p c b && pairFree p (b :: B2)) = true
    rw [hc b rfl, hB]
    rfl

theorem pairFree_append (p : Char → Char → Bool) :
    ∀ (A B : List Char), pairFree p A = true → pairFree p B = true →
      (∀ x y, A.getLast? = some x → B.head? = some y → p x y = false) →
      pairFree p (A ++ B) = true := by
  intro A
  induction A with
  | nil => intro B _ hB _; simpa using hB
  | cons a A ih =>
    intro B hA hB hb
    cases A with
    | nil =>
      cases B with
      | nil => rfl
      | cons b B2 =>
        show (!p a b && pairFree p (b :: B2)) = true
        rw [hb a b rfl rfl, hB]
        rfl
    | cons a2 A2 =>
      show (!p a a2 && pairFree p ((a2 :: A2) ++ B)) = true
      have hA2 : (!p a a2 && pairFree p (a2 :: A2)) = true := hA
      rw [Bool.and_eq_true] at hA2
      rcases hA2 with ⟨h1, h2⟩
      rw [Bool.and_eq_true]
      refine ⟨h1, ih B h2 hB ?_⟩
      intro x y hx hy
      refine hb x y ?_ hy
      rw [List.getLast?_cons_cons]
      exact hx


/-- A "clean" character list: nonempty, begins and ends with
non-whitespace, every whitespace character is a plain blank, and no two
whitespace characters are adjacent.  The minification
" ".join(s.split()) leaves exactly the clean lists unchanged. -/
def cleanCharsB (l : List Char) : Bool :=
  !l.isEmpty &&
  l.all (fun c => !isWsC c || c == ' ') &&
  !isWsC (l.headD 'x') &&
  !isWsC (l.getLastD 'x') &&
  pairFree (fun x y => isWsC x && isWsC y) l

theorem cleanCharsB_iff (l : List Char) :
    cleanCharsB l = true ↔
      l.isEmpty = false ∧ (∀ c ∈ l, isWsC c = false ∨ c = ' ') ∧
      isWsC (l.headD 'x') = false ∧ isWsC (l.getLastD 'x') = false ∧
      pairFree (fun x y => isWsC x && isWsC y) l = true := by
  unfold cleanCharsB
  rw [Bool.and_eq_true, Bool.and_eq_true, Bool.and_eq_true, Bool.and_eq_true]
  simp only [Bool.not_eq_true', List.all_eq_true, Bool.or_eq_true, beq_iff_eq,
    and_assoc]

theorem getLastD_mem : ∀ (l : List Char) (d : Char), l ≠ [] → l.getLastD d ∈ l := by
  intro l
  induction l with
  | nil => intro d h; exact absurd rfl h
  | cons a l ih =>
    intro d _
    rw [List.getLastD_cons]
    cases l with
    | nil => simp [List.getLastD]
    | cons b l2 => exact List.mem_cons_of_mem a (ih a (List.cons_ne_nil b l2))

theorem clean_of_nonws (l : List Char) (hne : l ≠ [])
    (h : ∀ c ∈ l, isWsC c = false) : cleanCharsB l = true := by
  rw [cleanCharsB_iff]
  refine ⟨by simpa using hne, fun c hc => Or.inl (h c hc), ?_, ?_, ?_⟩
  · cases l with
    | nil => exact absurd rfl hne
    | cons a l2 => exact h a (by simp)
  · exact h _ (getLastD_mem l 'x' hne)
  · refine pairFree_of_fst _ (fun x hx y => ?_)
    rw [h x hx]
    rfl

theorem isWsC_space : isWsC ' ' = true := rfl

theorem cleanCharsB_append (A B : List Char) (hA : cleanCharsB A = true)
    (hB : cleanCharsB B = true) : cleanCharsB (A ++ B) = true := by
  rw [cleanCharsB_iff] at hA hB ⊢
  obtain ⟨hAne, hAws, hAhead, hAlast, hApf⟩ := hA
  obtain ⟨hBne, hBws, hBhead, hBlast, hBpf⟩ := hB
  obtain ⟨a, A2, rfl⟩ : ∃ a A2, A = a :: A2 := by
    cases A with
    | nil => simp at hAne
    | cons a A2 => exact ⟨a, A2, rfl⟩
  obtain ⟨b, B2, rfl⟩ : ∃ b B2, B = b :: B2 := by
    cases B with
    | nil => simp at hBne
    | cons b B2 => exact ⟨b, B2, rfl⟩
  refine ⟨by simp, ?_, ?_, ?_, ?_⟩
  · intro c hc
    rcases List.mem_append.mp hc with h1 | h2
    · exact hAws c h1
    · exact hBws c h2
  · simpa using hAhead
  · rw [List.getLastD_eq_getLast?, List.getLast?_append_of_ne_nil _
      (List.cons_ne_nil b B2), ← List.getLastD_eq_getLast?]
    exact hBlast
  · refine pairFree_append _ _ _ hApf hBpf ?_
    intro x y hx hy
    have hxlast : (a :: A2).getLastD 'x' = x := by
      rw [List.getLastD_eq_getLast?, hx]
      rfl
    have hxnw : isWsC x = false := by rw [← hxlast]; exact hAlast
    rw [hxnw]
    rfl

theorem cleanCharsB_sep_append (A B : List Char) (hA : cleanCharsB A = true)
    (hB : cleanCharsB B = true) : cleanCharsB (A ++ ' ' :: B) = true := by
  rw [cleanCharsB_iff] at hA hB ⊢
  obtain ⟨hAne, hAws, hAhead, hAlast, hApf⟩ := hA
  obtain ⟨hBne, hBws, hBhead, hBlast, hBpf⟩ := hB
  obtain ⟨a, A2, rfl⟩ : ∃ a A2, A = a :: A2 := by
    cases A with
    | nil => simp at hAne
    | cons a A2 => exact ⟨a, A2, rfl⟩
  obtain ⟨b, B2, rfl⟩ : ∃ b B2, B = b :: B2 := by
    cases B with
    | nil => simp at hBne
    | cons b B2 => exact ⟨b, B2, rfl⟩
  have hshape : (a :: A2) ++ ' ' :: (b :: B2) = ((a :: A2) ++ [' ']) ++ (b :: B2) := by
    simp
  refine ⟨by simp, ?_, ?_, ?_, ?_⟩
  · intro c hc
    rcases List.mem_append.mp hc with h1 | h2
    · exact hAws c h1
    · rcases List.mem_cons.mp h2 with h3 | h4
      · exact Or.inr h3
      · exact hBws c h4
  · simpa using hAhead
  · rw [hshape, List.getLastD_eq_getLast?, List.getLast?_append_of_ne_nil _
      (List.cons_ne_nil b B2), ← List.getLastD_eq_getLast?]
    exact hBlast
  · rw [hshape]
    refine pairFree_append _ _ _ ?_ hBpf ?_
    · refine pairFree_append _ _ _ hApf rfl ?_
      intro x y hx hy
      have hxlast : (a :: A2).getLastD 'x' = x := by
        rw [List.getLastD_eq_getLast?, hx]
        rfl
      have hxnw : isWsC x = false := by rw [← hxlast]; exact hAlast
      rw [hxnw]
      rfl
    · intro x y hx hy
      have hy2 : b = y := by
        have h0 : some b = some y := hy
        injection h0
      have hynw : isWsC y = false := by
        rw [← hy2]
        simpa using hBhead
      show (isWsC x && isWsC y) = false
      rw [hynw, Bool.and_false]


theorem joinWords_words_clean_aux :
    ∀ (n : Nat) (l : List Char), l.length ≤ n → cleanCharsB l = true →
      joinWords (pyWordsSpec l) = l := by
  intro n
  induction n with
  | zero =>
    intro l hl hcl
    have h0 : l = [] := List.eq_nil_of_length_eq_zero (Nat.le_zero.mp hl)
    subst h0
    simp [cleanCharsB] at hcl
  | succ n ih =>
    intro l hl hcl
    obtain ⟨hne0, hws, hhead, hlast, hpf⟩ := (cleanCharsB_iff l).mp hcl
    obtain ⟨c, restl, rfl⟩ : ∃ c restl, l = c :: restl := by
      cases l with
      | nil => simp at hne0
      | cons c restl => exact ⟨c, restl, rfl⟩
    have hc : isWsC c = false := by simpa using hhead
    by_cases hall : ∀ x ∈ c :: restl, isWsC x = false
    · rw [pyWordsSpec_all_nonws _ (List.cons_ne_nil c restl) hall]
      rfl
    · push_neg at hall
      obtain ⟨x0, hx0mem, hx0⟩ := hall
      have hx0w : isWsC x0 = true := by
        revert hx0
        cases isWsC x0 <;> simp
      have hrne : (c :: restl).dropWhile (fun d => !isWsC d) ≠ [] := by
        intro hnil
        have hall2 := List.dropWhile_eq_nil_iff.mp hnil
        have := hall2 x0 hx0mem
        rw [hx0w] at this
        simp at this
      obtain ⟨c1, rest1, hr⟩ :
          ∃ c1 rest1, (c :: restl).dropWhile (fun d => !isWsC d) = c1 :: rest1 := by
        cases hdw : (c :: restl).dropWhile (fun d => !isWsC d) with
        | nil => exact absurd hdw hrne
        | cons c1 rest1 => exact ⟨c1, rest1, rfl⟩
      have hc1ws : isWsC c1 = true := by
        have h0 := dropWhile_head_false (fun d => !isWsC d) _ c1 rest1 hr
        simpa using h0
      have hc1mem : c1 ∈ c :: restl := by
        have hsub := (List.dropWhile_suffix (l := c :: restl) (fun d => !isWsC d)).subset
        exact hsub (hr ▸ List.mem_cons_self c1 rest1)
      have hc1sp : c1 = ' ' := by
        rcases hws c1 hc1mem with h0 | h0
        · rw [h0] at hc1ws; exact absurd hc1ws (by simp)
        · exact h0
      subst hc1sp
      have hdecomp :
          (c :: restl).takeWhile (fun d => !isWsC d) ++ ' ' :: rest1 = c :: restl := by
        rw [← hr]
        exact List.takeWhile_append_dropWhile _ _
      have hshape : (c :: restl).takeWhile (fun d => !isWsC d) ++ ' ' :: rest1 =
          ((c :: restl).takeWhile (fun d => !isWsC d) ++ [' ']) ++ rest1 := by
        simp
      have hrest1ne : rest1 ≠ [] := by
        intro h0
        subst h0
        have hlast2 : isWsC ((c :: restl).getLastD 'x') = true := by
          conv_lhs => rw [← hdecomp]
          rw [List.getLastD_eq_getLast?, List.getLast?_append_of_ne_nil _
            (List.cons_ne_nil ' ' [])]
          rfl
        rw [hlast] at hlast2
        exact Bool.noConfusion hlast2
      obtain ⟨h1, rest2, hr1⟩ : ∃ h1 rest2, rest1 = h1 :: rest2 := by
        cases rest1 with
        | nil => exact absurd rfl hrest1ne
        | cons h1 rest2 => exact ⟨h1, rest2, rfl⟩
      have hh1 : isWsC h1 = false := by
        have hadj : [' ', h1] <:+: c :: restl := by
          refine ⟨(c :: restl).takeWhile (fun d => !isWsC d), rest2, ?_⟩
          conv_rhs => rw [← hdecomp, hr1]
          simp
        have h0 := (pairFree_iff _ _).mp hpf ' ' h1 hadj
        rw [isWsC_space] at h0
        simpa using h0
      have hsub1 : rest1 <:+ c :: restl := by
        refine ⟨(c :: restl).takeWhile (fun d => !isWsC d) ++ [' '], ?_⟩
        rw [← hshape, hdecomp]
      have hcl1 : cleanCharsB rest1 = true := by
        rw [cleanCharsB_iff]
        refine ⟨by rw [hr1]; rfl, ?_, ?_, ?_, ?_⟩
        · intro c2 hc2
          exact hws c2 (hsub1.subset hc2)
        · rw [hr1]
          simpa using hh1
        · have hlast3 : (c :: restl).getLastD 'x' = rest1.getLastD 'x' := by
            conv_lhs => rw [← hdecomp, hshape]
            rw [List.getLastD_eq_getLast?, List.getLast?_append_of_ne_nil _ hrest1ne,
              ← List.getLastD_eq_getLast?]
          rw [← hlast3]
          exact hlast
        · exact pairFree_mono _ hpf hsub1.isInfix
      have hlen1 : rest1.length ≤ n := by
        have h0 : ((c :: restl).takeWhile (fun d => !isWsC d) ++ ' ' :: rest1).length =
            (c :: restl).length := by rw [hdecomp]
        rw [List.length_append] at h0
        simp at h0 hl
        omega
      have hih := ih rest1 hlen1 hcl1
      have hwordsne : pyWordsSpec rest1 ≠ [] := by
        intro h0
        rw [h0] at hih
        rw [hr1] at hih
        exact List.noConfusion hih.symm
      have hwords : pyWordsSpec (c :: restl) =
          (c :: restl).takeWhile (fun d => !isWsC d) :: pyWordsSpec rest1 := by
        rw [pyWordsSpec_cons_nonws hc, hr, pyWordsSpec_cons_ws isWsC_space]
      rw [hwords]
      obtain ⟨w1, ws1, hw1⟩ : ∃ w1 ws1, pyWordsSpec rest1 = w1 :: ws1 := by
        cases hpw : pyWordsSpec rest1 with
        | nil => exact absurd hpw hwordsne
        | cons w1 ws1 => exact ⟨w1, ws1, rfl⟩
      rw [hw1]
      show (c :: restl).takeWhile (fun d => !isWsC d) ++ ' ' :: joinWords (w1 :: ws1) =
        c :: restl
      rw [← hw1, hih, hdecomp]


theorem joinWords_words_clean (l : List Char) (h : cleanCharsB l = true) :
    joinWords (pyWordsSpec l) = l :=
  joinWords_words_clean_aux l.length l le_rfl h

theorem pyJoin_mem (sep : String) {c : Char} :
    ∀ l : List String, c ∈ (pyJoin sep l).data →
      c ∈ sep.data ∨ ∃ x ∈ l, c ∈ x.data := by
  intro l
  induction l with
  | nil =>
    intro h
    have h0 : c ∈ ([] : List Char) := h
    simp at h0
  | cons x l ih =>
    intro h
    cases l with
    | nil => exact Or.inr ⟨x, by simp, h⟩
    | cons y l2 =>
      have h1 : (pyJoin sep (x :: y :: l2)).data =
          (x.data ++ sep.data) ++ (pyJoin sep (y :: l2)).data := rfl
      rw [h1] at h
      rcases List.mem_append.mp h with h2 | h3
      · rcases List.mem_append.mp h2 with ha | hb
        · exact Or.inr ⟨x, by simp, ha⟩
        · exact Or.inl hb
      · rcases ih h3 with hs | ⟨z, hz, hcz⟩
        · exact Or.inl hs
        · exact Or.inr ⟨z, List.mem_cons_of_mem _ hz, hcz⟩

theorem pyJoin_infixData_of_mem (sep : String) {x : String} :
    ∀ l : List String, x ∈ l → x.data <:+: (pyJoin sep l).data := by
  intro l
  induction l with
  | nil => intro h; simp at h
  | cons y l ih =>
    intro h
    cases l with
    | nil =>
      have h0 : x = y := by simpa using h
      subst h0
      exact List.infix_refl _
    | cons z l2 =>
      have h1 : (pyJoin sep (y :: z :: l2)).data =
          (y.data ++ sep.data) ++ (pyJoin sep (z :: l2)).data := rfl
      rw [h1]
      rcases List.mem_cons.mp h with h2 | h3
      · subst h2
        refine ⟨[], sep.data ++ (pyJoin sep (z :: l2)).data, ?_⟩
        simp [List.append_assoc]
      · refine (ih h3).trans ⟨y.data ++ sep.data, [], ?_⟩
        simp

theorem digit_not_ws (c : Char) (h : c.isDigit = true) : isWsC c = false := by
  by_contra hcon
  have hws : isWsC c = true := by
    revert hcon
    cases isWsC c <;> simp
  unfold isWsC Char.isWhitespace at hws
  simp only [Bool.or_eq_true, decide_eq_true_eq] at hws
  rcases hws with ((h1 | h1) | h1) | h1 <;> (subst h1; exact absurd h (by decide))

theorem digit_ne (c d : Char) (h : c.isDigit = true) (hd : d.isDigit = false) :
    c ≠ d := by
  intro he
  rw [he] at h
  rw [h] at hd
  exact Bool.noConfusion hd

/-- Shape of a Wikidata entity identifier: Q or q followed by at least
one decimal digit (the scenario identifiers of the specification). -/
def isEntityIdStr (v : String) : Bool :=
  match v.data with
  | [] => false
  | c :: rest => (c == 'Q' || c == 'q') && (!rest.isEmpty && rest.all (fun d => d.isDigit))

theorem entityId_chars {v : String} (h : isEntityIdStr v = true) :
    v.data ≠ [] ∧ ∀ c ∈ v.data, isWsC c = false ∧ c ≠ 'M' ∧ c ≠ 'F' := by
  unfold isEntityIdStr at h
  obtain ⟨c, rest, hv⟩ : ∃ c rest, v.data = c :: rest := by
    cases hd : v.data with
    | nil => rw [hd] at h; exact Bool.noConfusion h
    | cons c rest => exact ⟨c, rest, rfl⟩
  rw [hv] at h
  simp only [Bool.and_eq_true, Bool.or_eq_true, beq_iff_eq, List.all_eq_true,
    Bool.not_eq_true'] at h
  obtain ⟨hQ, _, hdig⟩ := h
  refine ⟨by rw [hv]; exact List.cons_ne_nil c rest, ?_⟩
  intro x hx
  rw [hv] at hx
  rcases List.mem_cons.mp hx with h0 | h2
  · subst h0
    rcases hQ with h1 | h1 <;> (subst h1; exact ⟨by decide, by decide, by decide⟩)
  · have hd := hdig x h2
    exact ⟨digit_not_ws x hd, digit_ne x 'M' hd (by decide), digit_ne x 'F' hd (by decide)⟩



/-- The filter fragments and mutated field state produced for the base
descriptor by _build_query_filters with the default parameters. -/
def c2Filters : List String × List (String × Field) :=
  match buildQueryFiltersAux wdPropPfx wdEntityPfx wdSubclassProp false
      (loadWikidataFields baseModelAttrs) with
  | Except.ok p => p
  | Except.error _ => ([], [])

/-- The post-compilation field state of the default base-descriptor query. -/
def c2State : List (String × Field) := c2Filters.2

/-- The projected SELECT fields of the default base-descriptor query. -/
def c2QFStr : String :=
  pyJoin " " (((loadWikidataFields baseModelAttrs).map Prod.snd).map
    (fun f => f.to_wikidata_field false))

/-- The joined filter fragments of the default base-descriptor query. -/
def c2FilterStr : String := pyJoin " " c2Filters.1

/-- The mutated fields of the default base-descriptor query. -/
def c2Fields2 : List Field := c2Filters.2.map Prod.snd

/-- The joined outer filters of the default base-descriptor query. -/
def c2OuterStr : String :=
  pyJoin " " ((c2Fields2.filter (fun f => f.required || !f.use_minimal false)).map
    (fun f => f.to_wikidata_outer_filter (getPrimaryLanguage Option.none)))

/-- The label service clause of the default base-descriptor query. -/
def c2ServiceStr : String := buildQueryServiceClause c2Fields2 false Option.none

/-- The GROUP BY clause of the default base-descriptor query. -/
def c2GroupByStr : String :=
  "GROUP BY " ++ pyStrip (pyJoin " " (c2Fields2.map Field.to_wikidata_group))

/-- The raw (pre-minification) query text of the values-supplied branch of
build_query at the default parameters, with the VALUES clause spliced in. -/
def c2RawStr (values : List String) : String :=
  buildQueryPrefixes ++ " " ++
    ("\n SELECT DISTINCT " ++ c2QFStr ++ "\n WHERE \x7b\n " ++
      buildQueryValues values ++ " " ++ c2FilterStr ++ " " ++ c2OuterStr ++ " " ++
      c2ServiceStr ++ "\n \x7d\n " ++ c2GroupByStr ++ " " ++ buildQueryOrderBy false ++
      " " ++ "" ++ " " ++ "" ++ "\n")

set_option maxRecDepth 100000 in
theorem c2_raw (v : String) (vs' : List String) :
    build_query { values := v :: vs' } baseModelAttrs =
      Except.ok (minify (c2RawStr (v :: vs')), c2State) := rfl


/-- The compiled text preceding the VALUES clause (concrete: it does not
depend on the supplied identifiers). -/
def c2Pre : String :=
  buildQueryPrefixes ++ " " ++ "\n SELECT DISTINCT " ++ c2QFStr ++ "\n WHERE \x7b\n"

/-- The compiled text following the VALUES clause (concrete: it does not
depend on the supplied identifiers). -/
def c2Post : String :=
  c2FilterStr ++ " " ++ c2OuterStr ++ " " ++ c2ServiceStr ++ "\n \x7d\n " ++
    c2GroupByStr ++ " " ++ buildQueryOrderBy false ++ " " ++ "" ++ " " ++ "" ++ "\n"

/-- The minified form of the text before the VALUES clause. -/
def c2PreMin : List Char := joinWords (pyWords c2Pre.data)

/-- The minified form of the text after the VALUES clause. -/
def c2PostMin : List Char := joinWords (pyWords c2Post.data)

theorem c2RawStr_data (v : String) (vs' : List String) :
    (c2RawStr (v :: vs')).data =
      c2Pre.data ++ ' ' :: ((buildQueryValues (v :: vs')).data ++ ' ' :: c2Post.data) := by
  have hsp : (" " : String).data = [' '] := rfl
  have hwhere : ("\n WHERE \x7b\n " : String).data =
      ("\n WHERE \x7b\n" : String).data ++ [' '] := rfl
  unfold c2RawStr c2Pre c2Post
  simp only [strData, hsp, hwhere, List.append_assoc, List.singleton_append,
    List.cons_append, List.nil_append]

set_option maxRecDepth 200000 in
theorem c2PreMin_facts :
    c2PreMin ≠ [] ∧ 'M' ∉ c2PreMin ∧
      pairFree (fun x y => x == 'F' && y == 'F') c2PreMin = true := by
  refine ⟨?_, ?_, ?_⟩ <;> decide

set_option maxRecDepth 200000 in
theorem c2PostMin_facts :
    c2PostMin ≠ [] ∧ 'M' ∉ c2PostMin ∧
      pairFree (fun x y => x == 'F' && y == 'F') c2PostMin = true := by
  refine ⟨?_, ?_, ?_⟩ <;> decide

set_option maxRecDepth 200000 in
theorem c2WordsPre_ne : pyWords c2Pre.data ≠ [] := by decide

set_option maxRecDepth 200000 in
theorem c2WordsPost_ne : pyWords c2Post.data ≠ [] := by decide


theorem c2VF_data (v : String) (vs' : List String) :
    (buildQueryValues (v :: vs')).data =
      "VALUES ?main \x7b".data ++
        ((pyJoin " " ((v :: vs').map (fun x => wdEntityPfx ++ ":" ++ x))).data ++
          ['\x7d']) := rfl

theorem c2VF_ne (v : String) (vs' : List String) :
    (buildQueryValues (v :: vs')).data ≠ [] := by
  rw [c2VF_data]
  simp

theorem clean_pyJoin :
    ∀ l : List String, l ≠ [] →
      (∀ x ∈ l, x.data ≠ [] ∧ ∀ c ∈ x.data, isWsC c = false) →
      cleanCharsB (pyJoin " " l).data = true := by
  intro l
  induction l with
  | nil => intro h _; exact absurd rfl h
  | cons x l ih =>
    intro _ hx
    cases l with
    | nil =>
      obtain ⟨hne, hnws⟩ := hx x (by simp)
      exact clean_of_nonws x.data hne hnws
    | cons y l2 =>
      have hdata : (pyJoin " " (x :: y :: l2)).data =
          x.data ++ ' ' :: (pyJoin " " (y :: l2)).data := by
        show ((x ++ " ") ++ pyJoin " " (y :: l2)).data = _
        rw [strData, strData]
        simp [List.append_assoc]
      rw [hdata]
      exact cleanCharsB_sep_append _ _
        (clean_of_nonws x.data (hx x (by simp)).1 (hx x (by simp)).2)
        (ih (List.cons_ne_nil y l2) (fun z hz => hx z (List.mem_cons_of_mem _ hz)))

theorem c2Pieces (vs : List String) (hids : ∀ v ∈ vs, isEntityIdStr v = true) :
    ∀ x ∈ vs.map (fun x => wdEntityPfx ++ ":" ++ x),
      x.data ≠ [] ∧ ∀ c ∈ x.data, isWsC c = false ∧ c ≠ 'M' ∧ c ≠ 'F' := by
  intro x hx
  rcases List.mem_map.mp hx with ⟨w, hw, rfl⟩
  obtain ⟨hwne, hwch⟩ := entityId_chars (hids w hw)
  have hdata : (wdEntityPfx ++ ":" ++ w).data = 'w' :: 'd' :: ':' :: w.data := rfl
  constructor
  · rw [hdata]; exact List.cons_ne_nil _ _
  · intro c hc
    rw [hdata] at hc
    rcases List.mem_cons.mp hc with h0 | hc2
    · subst h0; exact ⟨by decide, by decide, by decide⟩
    rcases List.mem_cons.mp hc2 with h0 | hc3
    · subst h0; exact ⟨by decide, by decide, by decide⟩
    rcases List.mem_cons.mp hc3 with h0 | hc4
    · subst h0; exact ⟨by decide, by decide, by decide⟩
    · exact hwch c hc4

theorem c2VF_clean (v : String) (vs' : List String)
    (hids : ∀ w ∈ v :: vs', isEntityIdStr w = true) :
    cleanCharsB (buildQueryValues (v :: vs')).data = true := by
  rw [c2VF_data]
  refine cleanCharsB_append _ _ (by decide) (cleanCharsB_append _ _ ?_ (by decide))
  exact clean_pyJoin _ (by simp)
    (fun z hz => ⟨(c2Pieces _ hids z hz).1,
      fun c hc => ((c2Pieces _ hids z hz).2 c hc).1⟩)

theorem c2VF_noMF (v : String) (vs' : List String)
    (hids : ∀ w ∈ v :: vs', isEntityIdStr w = true) :
    ∀ x ∈ (buildQueryValues (v :: vs')).data, x ≠ 'M' ∧ x ≠ 'F' := by
  intro x hx
  rw [c2VF_data] at hx
  rcases List.mem_append.mp hx with h1 | h2
  · have hall : ∀ y ∈ ("VALUES ?main \x7b" : String).data, y ≠ 'M' ∧ y ≠ 'F' := by decide
    exact hall x h1
  rcases List.mem_append.mp h2 with h3 | h4
  · rcases pyJoin_mem " " _ h3 with hs | ⟨z, hz, hcz⟩
    · have hall : ∀ y ∈ (" " : String).data, y ≠ 'M' ∧ y ≠ 'F' := by decide
      exact hall x hs
    · exact ((c2Pieces _ hids z hz).2 x hcz).2
  · have h5 : x = '\x7d' := by simpa using h4
    subst h5
    exact ⟨by decide, by decide⟩


/-- Claim C2: with a non-empty identifier list supplied and every other
parameter at its default, the compiled query contains the VALUES clause on
the root variable ?main referencing every supplied identifier, contains no
LIMIT and no OFFSET clause, and the paging driver slices the identifier
list itself before compilation (the SPARQL offset it passes is zero). -/
theorem values_query_contents (vs : List String) (q : String)
    (st : List (String × Field)) (hvs : vs ≠ [])
    (hids : ∀ v ∈ vs, isEntityIdStr v = true)
    (hok : build_query { values := vs } baseModelAttrs = Except.ok (q, st)) :
    ((buildQueryValues vs).data <:+: q.data ∧ ∀ v ∈ vs, v.data <:+: q.data) ∧
    (¬ (("LIMIT" : String).data <:+: q.data) ∧
      ¬ (("OFFSET" : String).data <:+: q.data)) ∧
    (∀ minimal pageSize limit language page remaining,
      (pageRequest minimal pageSize limit vs language page remaining).offset = 0 ∧
      (pageRequest minimal pageSize limit vs language page remaining).values =
        some (pySlice vs ((page - 1) * pageSize)
          ((page - 1) * pageSize +
            (pageRequest minimal pageSize limit vs language page remaining).limit.toNat))) := by
  obtain ⟨v, vs', rfl⟩ : ∃ v vs', vs = v :: vs' := by
    cases vs with
    | nil => exact absurd rfl hvs
    | cons v vs' => exact ⟨v, vs', rfl⟩
  rw [c2_raw v vs'] at hok
  have hq : q = minify (c2RawStr (v :: vs')) := by
    injection hok with h1
    injection h1 with h2 h3
    exact h2.symm
  subst hq
  have hqdata : (minify (c2RawStr (v :: vs'))).data =
      joinWords (pyWordsSpec (c2Pre.data ++ ' ' ::
        ((buildQueryValues (v :: vs')).data ++ ' ' :: c2Post.data))) := by
    show joinWords (pyWords (c2RawStr (v :: vs')).data) = _
    rw [c2RawStr_data, pyWords_eq_spec]
  have hsplit : pyWordsSpec (c2Pre.data ++ ' ' ::
      ((buildQueryValues (v :: vs')).data ++ ' ' :: c2Post.data)) =
      pyWordsSpec c2Pre.data ++ (pyWordsSpec (buildQueryValues (v :: vs')).data ++
        pyWordsSpec c2Post.data) := by
    rw [pyWordsSpec_split ' ' isWsC_space, pyWordsSpec_split ' ' isWsC_space]
  have hmid : joinWords (pyWordsSpec (buildQueryValues (v :: vs')).data) =
      (buildQueryValues (v :: vs')).data :=
    joinWords_words_clean _ (c2VF_clean v vs' hids)
  have hWVne : pyWordsSpec (buildQueryValues (v :: vs')).data ≠ [] := by
    intro h0
    rw [h0] at hmid
    exact c2VF_ne v vs' hmid.symm
  have hW1ne : pyWordsSpec c2Pre.data ≠ [] := by
    rw [← pyWords_eq_spec]
    exact c2WordsPre_ne
  have hW2ne : pyWordsSpec c2Post.data ≠ [] := by
    rw [← pyWords_eq_spec]
    exact c2WordsPost_ne
  have hq2 : (minify (c2RawStr (v :: vs'))).data =
      c2PreMin ++ ' ' :: ((buildQueryValues (v :: vs')).data ++ ' ' :: c2PostMin) := by
    rw [hqdata, hsplit,
      joinWords_append _ _ hW1ne (fun h0 => hW2ne (List.append_eq_nil.mp h0).2),
      joinWords_append _ _ hWVne hW2ne, hmid]
    simp only [c2PreMin, c2PostMin, pyWords_eq_spec]
  obtain ⟨-, hMpre, hFFpre⟩ := c2PreMin_facts
  obtain ⟨-, hMpost, hFFpost⟩ := c2PostMin_facts
  refine ⟨⟨?_, ?_⟩, ⟨?_, ?_⟩, ?_⟩
  · rw [hq2]
    exact ⟨c2PreMin ++ [' '], ' ' :: c2PostMin, by simp⟩
  · intro w hw
    have h1 : w.data <:+: (wdEntityPfx ++ ":" ++ w).data := by
      refine ⟨['w', 'd', ':'], [], ?_⟩
      show ['w', 'd', ':'] ++ w.data ++ [] = 'w' :: 'd' :: ':' :: w.data
      simp
    have h2 : (wdEntityPfx ++ ":" ++ w).data <:+:
        (pyJoin " " ((v :: vs').map (fun x => wdEntityPfx ++ ":" ++ x))).data :=
      pyJoin_infixData_of_mem " " _ (List.mem_map_of_mem _ hw)
    have h3 : (pyJoin " " ((v :: vs').map (fun x => wdEntityPfx ++ ":" ++ x))).data <:+:
        (buildQueryValues (v :: vs')).data := by
      rw [c2VF_data]
      exact ⟨"VALUES ?main \x7b".data, ['\x7d'], rfl⟩
    have h4 : (buildQueryValues (v :: vs')).data <:+:
        (minify (c2RawStr (v :: vs'))).data := by
      rw [hq2]
      exact ⟨c2PreMin ++ [' '], ' ' :: c2PostMin, by simp⟩
    exact ((h1.trans h2).trans h3).trans h4
  · intro hcon
    have hM : 'M' ∈ (minify (c2RawStr (v :: vs'))).data :=
      hcon.subset (by decide : 'M' ∈ ("LIMIT" : String).data)
    rw [hq2] at hM
    rcases List.mem_append.mp hM with h1 | h2
    · exact hMpre h1
    rcases List.mem_cons.mp h2 with h3 | h4
    · exact absurd h3 (by decide)
    rcases List.mem_append.mp h4 with h5 | h6
    · exact absurd rfl ((c2VF_noMF v vs' hids 'M' h5).1)
    rcases List.mem_cons.mp h6 with h7 | h8
    · exact absurd h7 (by decide)
    · exact hMpost h8
  · intro hcon
    have hFF : (['F', 'F'] : List Char) <:+: (minify (c2RawStr (v :: vs'))).data :=
      List.IsInfix.trans (⟨['O'], ['S', 'E', 'T'], rfl⟩ :
        (['F', 'F'] : List Char) <:+: ("OFFSET" : String).data) hcon
    have hpfq : pairFree (fun x y => x == 'F' && y == 'F')
        (minify (c2RawStr (v :: vs'))).data = true := by
      rw [hq2]
      refine pairFree_append _ _ _ hFFpre ?_ ?_
      · refine pairFree_cons _ ' ' _ ?_ ?_
        · refine pairFree_append _ _ _ ?_ ?_ ?_
          · refine pairFree_of_fst _ ?_
            intro x hx y
            have hxF : (x == 'F') = false := by
              simp [(c2VF_noMF v vs' hids x hx).2]
            rw [hxF, Bool.false_and]
          · refine pairFree_cons _ ' ' _ hFFpost ?_
            intro y hy0
            rw [show ((' ' == 'F') : Bool) = false from rfl, Bool.false_and]
          · intro x y hx hy
            have hy2 : ' ' = y := by
              have h0 : some ' ' = some y := hy
              injection h0
            rw [← hy2, show ((' ' == 'F') : Bool) = false from rfl, Bool.and_false]
        · intro y hy0
          rw [show ((' ' == 'F') : Bool) = false from rfl, Bool.false_and]
      · intro x y hx hy
        have hy2 : ' ' = y := by
          have h0 : some ' ' = some y := hy
          injection h0
        rw [← hy2, show ((' ' == 'F') : Bool) = false from rfl, Bool.and_false]
    have h0 := (pairFree_iff _ _).mp hpfq 'F' 'F' hFF
    rw [show (('F' == 'F' && 'F' == 'F') : Bool) = true from rfl] at h0
    exact Bool.noConfusion h0
  · intro minimal pageSize limit language page remaining
    constructor <;> simp [pageRequest]


/-- The concrete compiled result for the scenario identifier list
("Q123", "Q321"). -/
def c2wPair : String × List (String × Field) :=
  match build_query { values := ["Q123", "Q321"] } baseModelAttrs with
  | Except.ok p => p
  | Except.error _ => ("", [])

set_option maxRecDepth 100000 in
theorem values_query_contents_witness :
    ((buildQueryValues ["Q123", "Q321"]).data <:+: c2wPair.1.data ∧
      ∀ v ∈ ["Q123", "Q321"], v.data <:+: c2wPair.1.data) ∧
    (¬ (("LIMIT" : String).data <:+: c2wPair.1.data) ∧
      ¬ (("OFFSET" : String).data <:+: c2wPair.1.data)) ∧
    (∀ minimal pageSize limit language page remaining,
      (pageRequest minimal pageSize limit ["Q123", "Q321"] language page
        remaining).offset = 0 ∧
      (pageRequest minimal pageSize limit ["Q123", "Q321"] language page
        remaining).values =
        some (pySlice ["Q123", "Q321"] ((page - 1) * pageSize)
          ((page - 1) * pageSize +
            (pageRequest minimal pageSize limit ["Q123", "Q321"] language page
              remaining).limit.toNat))) :=
  values_query_contents ["Q123", "Q321"] c2wPair.1 c2wPair.2 (by decide) (by decide) rfl

end DjangoWikidataAPI
